import Mathlib

/-!
# A verification development for the `phockup` media-sorting tool

This file gives a shallow embedding, in Lean 4, of the file-classification
and placement engine of `phockup.py` (the date resolver, destination
planner, name synthesizer, collision resolver / file placement, sidecar
associator and the digest-rename variant), together with theorems settling
a list of claims about that engine.

Modelling conventions:
* Paths and file contents are `String`s; the filesystem is a finite
  association list from path to content (`FS`).  Directories are not
  tracked: `os.makedirs` is assumed to succeed, as directory-creation
  failure aborts the whole run rather than a single file.
* The external `exiftool` invocation is an input: each handler receives
  the already-extracted metadata mapping (`Option MetadataMap`, `none`
  standing for Python `None`).
* SHA-256 is modelled as an ideal (collision-free) fingerprint of the
  file content, so digest equality coincides with content equality.
* Python exceptions that the per-file driver catches are modelled with
  `Except PyErr`; `sys.exit` paths are assumed not taken.
* Machine details irrelevant to the claims (Unicode case folding beyond
  ASCII, newline-handling corners of `re`) are modelled for the
  newline-free, ASCII file names and metadata values the tool sees.
-/

namespace Phockup

/-- Python exceptions relevant to the engine: `KeyError` from an unguarded
dictionary lookup, environment/IO errors (missing file), and an artificial
marker for exhaustion of the fuel that models the (always terminating)
`while True` placement loop. -/
inductive PyErr where
  | keyError : PyErr
  | ioError : PyErr
  | noFuel : PyErr
deriving DecidableEq, Repr

/-- Terminal per-file classification (the `status` strings of the source;
`error` is represented by the `Except.error` branch instead). -/
inductive Outcome where
  | moved : Outcome
  | copied : Outcome
  | duplicate : Outcome
  | other : Outcome
deriving DecidableEq, Repr

deriving instance DecidableEq for Except

/-- The metadata mapping produced by `exif()`: field name to value. -/
abbrev MetadataMap := List (String × String)

/-- A fully resolved calendar date-time, the fields of Python's
`datetime` used by the engine. -/
structure DateTime where
  year : Nat
  month : Nat
  day : Nat
  hour : Nat
  minute : Nat
  second : Nat
deriving DecidableEq, Repr

/-- The dictionary returned by `get_date` when a metadata value was found
or the filename pattern matched: an optional parsed date-time plus the
sub-second fragment (possibly empty).  `get_date` itself returns
`Option DateResult`, `none` modelling Python's implicit `None`. -/
structure DateResult where
  date : Option DateTime
  subseconds : String
deriving DecidableEq, Repr

/-- The date-time component of a `get_date` result, `none` when the
result is absent or carries no parsed date. -/
def resolvedDate : Option DateResult → Option DateTime
  | some r => r.date
  | none => none

/-- The filesystem: a finite map from absolute path to file content. -/
structure FS where
  files : List (String × String)
deriving DecidableEq, Repr

/-- Content of the file at `p`, if any. -/
def FS.read (fs : FS) (p : String) : Option String :=
  fs.files.lookup p

/-- `os.path.isfile`. -/
def FS.isFile (fs : FS) (p : String) : Bool :=
  (fs.read p).isSome

/-- Create or overwrite the file at `p` with content `c`. -/
def FS.write (fs : FS) (p c : String) : FS :=
  ⟨(p, c) :: fs.files.filter (fun e => e.1 ≠ p)⟩

/-- Delete the file at `p` (no-op when absent). -/
def FS.remove (fs : FS) (p : String) : FS :=
  ⟨fs.files.filter (fun e => e.1 ≠ p)⟩

/-- Python `str.endswith`. -/
def pyEndsWith (s suffix : String) : Bool :=
  suffix.data.isSuffixOf s.data

/-- Last index of `c` in the list, if any (Python `str.rfind`). -/
def rfindIdx (c : Char) : List Char → Option Nat
  | [] => none
  | a :: rest =>
    match rfindIdx c rest with
    | some i => some (i + 1)
    | none => if a = c then some 0 else none

/-- Model of `os.path.basename`: everything after the last `/`. -/
def basename (p : String) : String :=
  match rfindIdx '/' p.data with
  | some i => ((p.data).drop (i + 1)).asString
  | none => p

/-- Model of `os.path.splitext`: split off the extension at the last dot of the
last path component, unless every character of that component before the
dot is itself a dot (so `.xmp` has no extension). -/
def splitext (p : String) : String × String :=
  let cs := p.data
  let si : Int := match rfindIdx '/' cs with
    | some i => (i : Int)
    | none => -1
  match rfindIdx '.' cs with
  | some di =>
    if (si : Int) < (di : Int) ∧
        ((cs.drop (si + 1).toNat).take (di - (si + 1).toNat)).any (· ≠ '.') then
      ((cs.take di).asString, (cs.drop di).asString)
    else (p, "")
  | none => (p, "")

/-- Python `str.split(sep)` for a one-character separator. -/
def pySplit (sep : Char) : List Char → List (List Char)
  | [] => [[]]
  | c :: rest =>
    match pySplit sep rest with
    | [] => [[]]
    | h :: t => if c = sep then [] :: h :: t else (c :: h) :: t

/-- Numeric value of a decimal digit character. -/
def dval (c : Char) : Nat :=
  c.toNat - 48

/-- First candidate for which the continuation succeeds (models regex
backtracking over an alternation, alternatives in priority order). -/
def firstSome (l : List α) (f : α → Option β) : Option β :=
  match l with
  | [] => none
  | a :: t =>
    match f a with
    | some b => some b
    | none => firstSome t f

/-- Candidates of the CPython `_strptime` pattern for `%Y`,
`(?P<Y>\d\d\d\d)`: exactly four digits. -/
def yearCands : List Char → List (Nat × List Char)
  | a :: b :: c :: d :: rest =>
    if a.isDigit ∧ b.isDigit ∧ c.isDigit ∧ d.isDigit then
      [(((dval a * 10 + dval b) * 10 + dval c) * 10 + dval d, rest)]
    else []
  | _ => []

/-- Candidates for `%m`, `(?P<m>1[0-2]|0[1-9]|[1-9])`, in alternation
order: two-digit forms first, then a single digit. -/
def monthCands : List Char → List (Nat × List Char)
  | a :: b :: rest =>
    (if (a = '1' ∧ '0' ≤ b ∧ b ≤ '2') ∨ (a = '0' ∧ '1' ≤ b ∧ b ≤ '9') then
      [(dval a * 10 + dval b, rest)] else [])
    ++ (if '1' ≤ a ∧ a ≤ '9' then [(dval a, b :: rest)] else [])
  | [a] => if '1' ≤ a ∧ a ≤ '9' then [(dval a, [])] else []
  | [] => []

/-- Candidates for `%d`, `(?P<d>3[01]|[12]\d|0[1-9]|[1-9])`. -/
def dayCands : List Char → List (Nat × List Char)
  | a :: b :: rest =>
    (if (a = '3' ∧ '0' ≤ b ∧ b ≤ '1') ∨ (('1' ≤ a ∧ a ≤ '2') ∧ b.isDigit) ∨
        (a = '0' ∧ '1' ≤ b ∧ b ≤ '9') then
      [(dval a * 10 + dval b, rest)] else [])
    ++ (if '1' ≤ a ∧ a ≤ '9' then [(dval a, b :: rest)] else [])
  | [a] => if '1' ≤ a ∧ a ≤ '9' then [(dval a, [])] else []
  | [] => []

/-- Candidates for `%H`, `(?P<H>2[0-3]|[0-1]\d|\d)`. -/
def hourCands : List Char → List (Nat × List Char)
  | a :: b :: rest =>
    (if (a = '2' ∧ '0' ≤ b ∧ b ≤ '3') ∨ (('0' ≤ a ∧ a ≤ '1') ∧ b.isDigit) then
      [(dval a * 10 + dval b, rest)] else [])
    ++ (if a.isDigit then [(dval a, b :: rest)] else [])
  | [a] => if a.isDigit then [(dval a, [])] else []
  | [] => []

/-- Candidates for `%M`, `(?P<M>[0-5]\d|\d)`. -/
def minuteCands : List Char → List (Nat × List Char)
  | a :: b :: rest =>
    (if ('0' ≤ a ∧ a ≤ '5') ∧ b.isDigit then
      [(dval a * 10 + dval b, rest)] else [])
    ++ (if a.isDigit then [(dval a, b :: rest)] else [])
  | [a] => if a.isDigit then [(dval a, [])] else []
  | [] => []

/-- Candidates for `%S`, `(?P<S>6[0-1]|[0-5]\d|\d)` (leap seconds 60 and
61 pass the pattern but are rejected by the `datetime` constructor). -/
def secondCands : List Char → List (Nat × List Char)
  | a :: b :: rest =>
    (if (a = '6' ∧ '0' ≤ b ∧ b ≤ '1') ∨ (('0' ≤ a ∧ a ≤ '5') ∧ b.isDigit) then
      [(dval a * 10 + dval b, rest)] else [])
    ++ (if a.isDigit then [(dval a, b :: rest)] else [])
  | [a] => if a.isDigit then [(dval a, [])] else []
  | [] => []

/-- Rests after consuming one or more whitespace characters (a literal
blank in a `strptime` format compiles to `\s+`), longest match first. -/
def wsRests : List Char → List (List Char)
  | [] => []
  | c :: rest => if c.isWhitespace then wsRests rest ++ [rest] else []

/-- Gregorian leap-year test, as in Python's `calendar`/`datetime`. -/
def isLeap (y : Nat) : Bool :=
  y % 4 = 0 ∧ (y % 100 ≠ 0 ∨ y % 400 = 0)

/-- Number of days in a month. -/
def daysInMonth (y m : Nat) : Nat :=
  if m = 2 then (if isLeap y then 29 else 28)
  else if m = 4 ∨ m = 6 ∨ m = 9 ∨ m = 11 then 30
  else 31

/-- Validation performed by the `datetime.datetime` constructor:
`MINYEAR ≤ year ≤ MAXYEAR`, a real calendar day, and in-range time
fields (no leap seconds).  Returns `none` where Python raises
`ValueError`. -/
def mkDatetime (y mo d h mi s : Int) : Option DateTime :=
  if 1 ≤ y ∧ y ≤ 9999 ∧ 1 ≤ mo ∧ mo ≤ 12 ∧ 1 ≤ d ∧
      d ≤ (daysInMonth y.toNat mo.toNat : Int) ∧
      0 ≤ h ∧ h ≤ 23 ∧ 0 ≤ mi ∧ mi ≤ 59 ∧ 0 ≤ s ∧ s ≤ 59 then
    some ⟨y.toNat, mo.toNat, d.toNat, h.toNat, mi.toNat, s.toNat⟩
  else none

/-- Parse `%H:%M:%S` followed by end of input (the whole input string
must be consumed, as `strptime` raises on unconverted trailing data). -/
def parseTimeTail (cs : List Char) : Option (Nat × Nat × Nat) :=
  firstSome (hourCands cs) fun hr =>
    match hr.2 with
    | c1 :: r2 =>
      if c1 = ':' then
        firstSome (minuteCands r2) fun mr =>
          match mr.2 with
          | c2 :: r4 =>
            if c2 = ':' then
              firstSome (secondCands r4) fun sr =>
                if sr.2 = [] then some (hr.1, mr.1, sr.1) else none
            else none
          | [] => none
      else none
    | [] => none

/-- The extracted fields of `datetime.strptime(s, fmt)` where `fmt` is
one of the two accepted formats, with `sep` the date separator
(`:` for `"%Y:%m:%d %H:%M:%S"`, `-` for `"%Y-%m-%d %H:%M:%S"`). -/
def pyStrptimeFields (sep : Char) (cs : List Char) :
    Option (Nat × Nat × Nat × Nat × Nat × Nat) :=
  firstSome (yearCands cs) fun yr =>
    match yr.2 with
    | c1 :: r2 =>
      if c1 = sep then
        firstSome (monthCands r2) fun mr =>
          match mr.2 with
          | c2 :: r4 =>
            if c2 = sep then
              firstSome (dayCands r4) fun dr =>
                firstSome (wsRests dr.2) fun r6 =>
                  (parseTimeTail r6).map fun t =>
                    (yr.1, mr.1, dr.1, t.1, t.2.1, t.2.2)
            else none
          | [] => none
      else none
    | [] => none

/-- Model of `datetime.strptime` against one of the two date formats:
pattern match, then construction of the `datetime` (which validates the
calendar date). -/
def pyStrptime (sep : Char) (cs : List Char) : Option DateTime :=
  match pyStrptimeFields sep cs with
  | some (y, mo, d, h, mi, s) =>
    mkDatetime (y : Int) (mo : Int) (d : Int) (h : Int) (mi : Int) (s : Int)
  | none => none

/-- Does the list start with a six-character window matching the regex
`[+-]\d{2}:\d{2}` (a trailing timezone offset)? -/
def tzWindow : List Char → Bool
  | a :: b :: c :: d :: e :: f :: _ =>
    (a = '+' ∨ a = '-') ∧ b.isDigit ∧ c.isDigit ∧ d = ':' ∧ e.isDigit ∧ f.isDigit
  | _ => false

/-- Start index of the rightmost timezone window, if any.  The pattern
`(.*)([+-]\d{2}:\d{2})` has a greedy `.*`, so `re.sub(..., r'\1', s)`
removes the rightmost such window. -/
def lastTzIdx : List Char → Option Nat
  | [] => none
  | c :: rest =>
    match lastTzIdx rest with
    | some i => some (i + 1)
    | none => if tzWindow (c :: rest) then some 0 else none

/-- Model of `re.sub(r'(.*)([+-]\d{2}:\d{2})', r'\1', s)` guarded by the
`re.search` test in `get_date`: drop the rightmost timezone window. -/
def stripTz (cs : List Char) : List Char :=
  match lastTzIdx cs with
  | some i => cs.take i ++ cs.drop (i + 6)
  | none => cs

/-- Take exactly `n` decimal digits from the front. -/
def takeDigits : Nat → List Char → Option (List Char × List Char)
  | 0, cs => some ([], cs)
  | _ + 1, [] => none
  | n + 1, c :: cs =>
    if c.isDigit then
      (takeDigits n cs).map fun p => (c :: p.1, p.2)
    else none

/-- Match of the tail of the built-in default filename pattern
`.*[_-](?P<year>\d{4})(?P<month>\d{2})(?P<day>\d{2})[_-]?(?P<hour>\d{2})(?P<minute>\d{2})(?P<second>\d{2})`
starting right after a `[_-]` separator, producing the named groups as
captured strings.  When the optional `[_-]` is present but fewer than six
digits follow, the regex backtracks to the empty alternative and then
fails anyway (the separator character is not a digit), so consuming the
separator unconditionally is faithful. -/
def matchGroupsAfterSep (cs : List Char) : Option (List (String × String)) :=
  match takeDigits 4 cs with
  | none => none
  | some (y, r1) =>
    match takeDigits 2 r1 with
    | none => none
    | some (mo, r2) =>
      match takeDigits 2 r2 with
      | none => none
      | some (d, r3) =>
        let r3' := match r3 with
          | c :: t => if c = '_' ∨ c = '-' then t else r3
          | [] => r3
        match takeDigits 2 r3' with
        | none => none
        | some (h, r4) =>
          match takeDigits 2 r4 with
          | none => none
          | some (mi, r5) =>
            match takeDigits 2 r5 with
            | none => none
            | some (s, _) =>
              some [("year", y.asString), ("month", mo.asString),
                ("day", d.asString), ("hour", h.asString),
                ("minute", mi.asString), ("second", s.asString)]

/-- Model of `default_regex.search(name)`: thanks to the leading greedy
`.*`, the match (if any) uses the rightmost `[_-]` separator whose tail
matches the rest of the pattern. -/
def defaultSearch : List Char → Option (List (String × String))
  | [] => none
  | c :: rest =>
    match defaultSearch rest with
    | some g => some g
    | none =>
      if c = '_' ∨ c = '-' then matchGroupsAfterSep rest else none

/-- Nonempty all-digit prefix value. -/
def digitsToNat : List Char → Option Nat
  | [] => none
  | cs =>
    if cs.all Char.isDigit then
      some (cs.foldl (fun a c => a * 10 + dval c) 0)
    else none

/-- Model of Python `int(str)`: strip surrounding whitespace, optional
sign, then decimal digits (PEP-515 underscores are not modelled). -/
def pyInt (s : String) : Option Int :=
  let cs := ((s.data.dropWhile Char.isWhitespace).reverse.dropWhile
    Char.isWhitespace).reverse
  match cs with
  | '-' :: ds => (digitsToNat ds).map fun n => -(n : Int)
  | '+' :: ds => (digitsToNat ds).map fun n => (n : Int)
  | ds => (digitsToNat ds).map fun n => (n : Int)

/-- Lines 206--214 of `get_date`: convert every captured group to `int`
(`ValueError` on failure), look up the six required names (`KeyError`
when missing), and construct the `datetime`; every failure is caught and
yields `date = None`. -/
def groupsToDate (gd : List (String × String)) : Option DateTime := do
  let ints ← gd.mapM fun kv => (pyInt kv.2).map fun n => (kv.1, n)
  let y ← ints.lookup "year"
  let mo ← ints.lookup "month"
  let d ← ints.lookup "day"
  let h ← ints.lookup "hour"
  let mi ← ints.lookup "minute"
  let s ← ints.lookup "second"
  mkDatetime y mo d h mi s

/-- A compiled user-supplied regex, modelled as the map from a file's
base name to the `groupdict()` of its search result. -/
abbrev PyRegex := String → Option (List (String × String))

/-- The metadata keys probed by `get_date`, in priority order. -/
def dateKeys (use_modification_date : Bool) : List String :=
  ["Create Date", "Date/Time Original", "Media created"] ++
    (if use_modification_date then ["File Modification Date/Time"] else [])

/-- Value of the first present key (the `for key in keys` loop with its
`break`). -/
def firstKeyValue (keys : List String) (m : MetadataMap) : Option String :=
  match keys with
  | [] => none
  | k :: ks =>
    match m.lookup k with
    | some v => some v
    | none => firstKeyValue ks m

/-- The filename fallback of `get_date` (lines 197--220): search the base
name with the user regex or the built-in default pattern, convert the
named groups, and return a result only when a valid `datetime` came out. -/
def getDateFromFilename (file : String) (user_regex : Option PyRegex) :
    Option DateResult :=
  let gd? := match user_regex with
    | some r => r (basename file)
    | none => defaultSearch (basename file).data
  match gd? with
  | none => none
  | some gd =>
    match groupsToDate gd with
    | some dt => some ⟨some dt, ""⟩
    | none => none

/-- Model of `get_date` (lines 161--220): probe the metadata keys in
priority order; on a (truthy) value, split at `.`, strip a trailing
timezone offset from the part before the first dot, and parse it against
the two accepted formats; otherwise fall back to the filename pattern. -/
def get_date (file : String) (exif_data : MetadataMap)
    (user_regex : Option PyRegex) (use_modification_date : Bool) :
    Option DateResult :=
  match firstKeyValue (dateKeys use_modification_date) exif_data with
  | some ds =>
    if ds ≠ "" then
      let parts := pySplit '.' ds.data
      let date := parts.headD []
      let subseconds := parts.getD 1 []
      let date := stripTz date
      let parsed := match pyStrptime ':' date with
        | some dt => some dt
        | none => pyStrptime '-' date
      some ⟨parsed, subseconds.asString⟩
    else getDateFromFilename file user_regex
  | none => getDateFromFilename file user_regex

/-- Model of Python `str.lower` (`String.toLower` character by
character; the names the tool sees are ASCII). -/
def pyLower (s : String) : String :=
  (s.data.map Char.toLower).asString

/-- Zero-padded decimal rendering (`'%04d' % n`, `'%02d' % n`). -/
def padZ (w n : Nat) : String :=
  let s := Nat.repr n
  (List.replicate (w - s.length) '0').asString ++ s

/-- Abbreviated month names (`%b`). -/
def monthAbbrev : Nat → String
  | 1 => "Jan" | 2 => "Feb" | 3 => "Mar" | 4 => "Apr" | 5 => "May"
  | 6 => "Jun" | 7 => "Jul" | 8 => "Aug" | 9 => "Sep" | 10 => "Oct"
  | 11 => "Nov" | 12 => "Dec" | _ => ""

/-- Full month names (`%B`). -/
def monthFull : Nat → String
  | 1 => "January" | 2 => "February" | 3 => "March" | 4 => "April"
  | 5 => "May" | 6 => "June" | 7 => "July" | 8 => "August"
  | 9 => "September" | 10 => "October" | 11 => "November"
  | 12 => "December" | _ => ""

/-- Day of the year (`%j`), 1-based. -/
def dayOfYear (dt : DateTime) : Nat :=
  ((List.range dt.month).filter (1 ≤ ·)).foldl
    (fun a m => a + daysInMonth dt.year m) 0 + dt.day

/-- Model of `date.strftime` for the directives producible by
`parse_date_format` (`%Y %y %b %m %B %j %d`) plus literal text; other
text is copied verbatim. -/
def pyStrftime (fmt : List Char) (dt : DateTime) : String :=
  match fmt with
  | [] => ""
  | '%' :: c :: rest =>
    (if c = 'Y' then padZ 4 dt.year
     else if c = 'y' then padZ 2 (dt.year % 100)
     else if c = 'm' then padZ 2 dt.month
     else if c = 'b' then monthAbbrev dt.month
     else if c = 'B' then monthFull dt.month
     else if c = 'd' then padZ 2 dt.day
     else if c = 'j' then padZ 3 (dayOfYear dt)
     else ('%' :: [c]).asString) ++ pyStrftime rest dt
  | c :: rest => [c].asString ++ pyStrftime rest dt

/-- Model of `get_output_dir` (lines 223--248): strip one trailing path
separator from the output root, then append the date-formatted
subdirectory, or the literal `unknown` when no date-time is available
(the `except` branch, also taken for the `False` passed by the non-media
branches).  Directory creation is assumed to succeed. -/
def get_output_dir (date : Option DateResult) (outputdir dir_format : String) :
    String :=
  let od := if pyEndsWith outputdir "/" then outputdir.data.dropLast.asString
    else outputdir
  match date with
  | some ⟨some dt, _⟩ => od ++ "/" ++ pyStrftime dir_format.data dt
  | _ => od ++ "/unknown"

/-- Model of `get_file_name` (lines 251--269): `YYYYMMDD-HHMMSS`, the
sub-second fragment verbatim when non-empty, then the original
extension; any failure (absent result or absent date-time) falls back to
the original base name. -/
def get_file_name (file : String) (date : Option DateResult) : String :=
  match date with
  | some ⟨some dt, subs⟩ =>
    padZ 4 dt.year ++ padZ 2 dt.month ++ padZ 2 dt.day ++ "-" ++
      padZ 2 dt.hour ++ padZ 2 dt.minute ++ padZ 2 dt.second ++
      (if subs ≠ "" then subs else "") ++ (splitext file).2
  | _ => basename file

/-- Equality against a regex literal in which `.` is a wildcard for any
character (as in the unescaped dots of `application/vnd.adobe.photoshop`). -/
def wildEq : List Char → List Char → Bool
  | [], [] => true
  | p :: ps, c :: cs =>
    (if p = '.' then c ≠ '\n' else p = c) ∧ wildEq ps cs
  | _, _ => false

/-- Match of `^(image/.+|video/.+|application/vnd.adobe.photoshop)$`
(`.` does not match a newline). -/
def mimeMatch (s : String) : Bool :=
  let cs := s.data
  (cs.take 6 = "image/".data ∧ cs.length > 6 ∧ '\n' ∉ cs.drop 6) ∨
  (cs.take 6 = "video/".data ∧ cs.length > 6 ∧ '\n' ∉ cs.drop 6) ∨
  wildEq "application/vnd.adobe.photoshop".data cs

/-- Model of `is_image_or_video` (lines 272--276): a falsy mapping
(Python `None` or an empty dict) yields `False`; otherwise the `'MIME
Type'` lookup is unguarded and raises `KeyError` when the key is absent. -/
def is_image_or_video (exif_data : Option MetadataMap) : Except PyErr Bool :=
  match exif_data with
  | none => .ok false
  | some m =>
    if m.isEmpty then .ok false
    else
      match m.lookup "MIME Type" with
      | none => .error .keyError
      | some v => .ok (mimeMatch v)

/-- Ideal model of the hex digest of `sha256_checksum`: SHA-256 is
collision resistant, so the digest is modelled as a collision-free
fingerprint of the content. -/
def sha256_hex (content : String) : String :=
  content

/-- Model of `sha256_checksum` (lines 389--394): stream the file at
`filename` through the digest; opening a missing file raises. -/
def sha256_checksum (fs : FS) (filename : String) : Except PyErr String :=
  match fs.read filename with
  | some c => .ok (sha256_hex c)
  | none => .error .ioError

/-- The candidate target path probed by the placement loop at a given
suffix index: the computed path itself for index 1, and
`"%s-%d%s" % (stem, index, ext)` afterwards (lines 299--321). -/
def candidate (target_file_path : String) (suffix : Nat) : String :=
  if suffix = 1 then target_file_path
  else
    let ts := splitext target_file_path
    ts.1 ++ "-" ++ Nat.repr suffix ++ ts.2

/-- Model of `handle_file_xmp` (lines 363--386): look for a sidecar at
`source + '.xmp'` and then at `stem(source) + '.xmp'`; relocate it (with
the primary's disambiguation suffix, appended after the matched name)
into the destination directory; silently do nothing when absent. -/
def handle_file_xmp (fs : FS) (source_file photo_name : String) (suffix : Nat)
    (exif_output_dir : String) (move_files : Bool) : FS :=
  let xmp_original_with_ext := source_file ++ ".xmp"
  let xmp_original_without_ext := (splitext source_file).1 ++ ".xmp"
  let sfx := if suffix > 1 then "-" ++ Nat.repr suffix else ""
  let oc : Option (String × String) :=
    if fs.isFile xmp_original_with_ext then
      some (xmp_original_with_ext, photo_name ++ sfx ++ ".xmp")
    else if fs.isFile xmp_original_without_ext then
      some (xmp_original_without_ext, (splitext photo_name).1 ++ sfx ++ ".xmp")
    else none
  match oc with
  | none => fs
  | some (orig, tgt) =>
    let xmp_path := exif_output_dir ++ "/" ++ tgt
    match fs.read orig with
    | some c =>
      if move_files then (fs.remove orig).write xmp_path c
      else fs.write xmp_path c
    | none => fs

/-- Lines 287--297 of `handle_file`: decide whether the file is an image
or video (only probing `is_image_or_video` when the metadata mapping is
truthy), resolve the date, and compute the output directory and target
file name (lower-cased in the media branch). -/
def planTarget (source_file outputdir dir_format : String)
    (date_regex : Option PyRegex) (exif_data : Option MetadataMap) :
    Except PyErr (Option DateResult × String × String) :=
  let truthy := match exif_data with
    | some m => !m.isEmpty
    | none => false
  match (if truthy then is_image_or_video exif_data else .ok false) with
  | .error e => .error e
  | .ok media =>
    if media then
      let date := get_date source_file (exif_data.getD []) date_regex false
      .ok (date, get_output_dir date outputdir dir_format,
        pyLower (get_file_name source_file date))
    else
      .ok (none, get_output_dir none outputdir dir_format,
        basename source_file)

/-- The `while True` placement loop of `handle_file` (lines 299--322):
probe candidate paths with increasing suffix; an occupied candidate with
an equal digest is a duplicate (nothing written); a free candidate
receives the move/copy followed by the sidecar relocation.  The Python
loop always terminates because the directory holds finitely many files;
`fuel` makes that termination explicit and is chosen large enough by
`handle_file`. -/
def placeLoop (fs : FS) (source_file target_file_path target_file_name
    output_dir : String) (move_files : Bool) :
    Nat → Nat → Except PyErr (Outcome × FS)
  | 0, _ => .error .noFuel
  | fuel + 1, suffix =>
    let target_file := candidate target_file_path suffix
    if fs.isFile target_file then
      match sha256_checksum fs source_file, sha256_checksum fs target_file with
      | .ok hs, .ok ht =>
        if hs = ht then .ok (.duplicate, fs)
        else
          placeLoop fs source_file target_file_path target_file_name
            output_dir move_files fuel (suffix + 1)
      | .error e, _ => .error e
      | .ok _, .error e => .error e
    else
      match fs.read source_file with
      | none => .error .ioError
      | some c =>
        let fs1 := if move_files then (fs.remove source_file).write target_file c
          else fs.write target_file c
        let fs2 := handle_file_xmp fs1 source_file target_file_name suffix
          output_dir move_files
        .ok ((if move_files then Outcome.moved else Outcome.copied), fs2)

/-- Model of `handle_file` (lines 279--323), timestamp mode: an early
`other` for `.xmp` sidecars (no placement at all), then target planning
and the collision-resolution loop. -/
def handle_file (fs : FS) (source_file outputdir dir_format : String)
    (move_files : Bool) (date_regex : Option PyRegex)
    (exif_data : Option MetadataMap) : Except PyErr (Outcome × FS) :=
  if pyEndsWith source_file ".xmp" then .ok (.other, fs)
  else
    match planTarget source_file outputdir dir_format date_regex exif_data with
    | .error e => .error e
    | .ok (_, output_dir, target_file_name) =>
      let target_file_path := output_dir ++ "/" ++ target_file_name
      placeLoop fs source_file target_file_path target_file_name output_dir
        move_files (fs.files.length + 2) 1

/-- Model of `handle_file2` (lines 325--360), digest-rename mode: media
files are renamed to their content digest (date resolution with the
modification-date fallback enabled decides only the directory); other
files keep their base name under `unknown`; a single existence probe
decides `duplicate` with no digest comparison of the existing file. -/
def handle_file2 (fs : FS) (source_file outputdir dir_format : String)
    (move_files : Bool) (date_regex : Option PyRegex)
    (exif_data : Option MetadataMap) : Except PyErr (Outcome × FS) :=
  let target_file_name := basename source_file
  match sha256_checksum fs source_file with
  | .error e => .error e
  | .ok source_sha256 =>
    match is_image_or_video exif_data with
    | .error e => .error e
    | .ok media =>
      let pair :=
        if media then
          let date := get_date source_file (exif_data.getD []) date_regex true
          (get_output_dir date outputdir dir_format,
            source_sha256 ++ (splitext target_file_name).2)
        else
          (get_output_dir none outputdir dir_format, target_file_name)
      let target_file := pair.1 ++ "/" ++ pair.2
      if fs.isFile target_file then
        .ok (.duplicate, fs)
      else
        match fs.read source_file with
        | none => .error .ioError
        | some c =>
          if move_files then
            .ok (.moved, (fs.remove source_file).write target_file c)
          else
            .ok (.copied, fs.write target_file c)

/-- Reference decimal rendering used to reason about `Nat.repr`:
most-significant digit first. -/
def toDigitsRec (n : Nat) : List Char :=
  if h : n / 10 = 0 then [Nat.digitChar (n % 10)]
  else toDigitsRec (n / 10) ++ [Nat.digitChar (n % 10)]
decreasing_by exact Nat.div_lt_self (Nat.pos_of_ne_zero (by omega)) (by omega)

/-- Value of a most-significant-first decimal digit list. -/
def rVal (l : List Char) : Nat :=
  l.foldl (fun a c => a * 10 + dval c) 0

/- ### Helper lemmas -/

theorem lookup_cons_eq (k v : String) (t : List (String × String)) :
    List.lookup k ((k, v) :: t) = some v := by
  simp [List.lookup_cons]

theorem lookup_cons_ne {k q : String} (v : String) (t : List (String × String))
    (h : q ≠ k) : List.lookup q ((k, v) :: t) = List.lookup q t := by
  have hb : (q == k) = false := by simp [h]
  simp [List.lookup_cons, hb]

theorem lookup_filter_ne (p q : String) (l : List (String × String)) :
    (l.filter (fun e => e.1 ≠ p)).lookup q =
      if q = p then none else l.lookup q := by
  induction l with
  | nil => simp
  | cons e t ih =>
    obtain ⟨k, v⟩ := e
    rw [List.filter_cons]
    by_cases hkp : k = p
    · rw [if_neg (by simp [hkp]), ih]
      by_cases hqp : q = p
      · simp [hqp]
      · rw [if_neg hqp, if_neg hqp, lookup_cons_ne v t (fun h => hqp (h.trans hkp))]
    · rw [if_pos (by simp [hkp])]
      by_cases hqk : q = k
      · subst hqk
        rw [if_neg hkp, lookup_cons_eq, lookup_cons_eq]
      · rw [lookup_cons_ne v _ hqk, ih]
        by_cases hqp : q = p
        · simp [hqp]
        · rw [if_neg hqp, if_neg hqp, lookup_cons_ne v t hqk]

theorem FS.read_write (fs : FS) (p c q : String) :
    (fs.write p c).read q = if q = p then some c else fs.read q := by
  by_cases hqp : q = p
  · subst hqp
    simp [FS.write, FS.read, lookup_cons_eq]
  · simp only [FS.write, FS.read, if_neg hqp]
    rw [lookup_cons_ne c _ hqp, lookup_filter_ne, if_neg hqp]

theorem FS.read_remove (fs : FS) (p q : String) :
    (fs.remove p).read q = if q = p then none else fs.read q := by
  simp only [FS.remove, FS.read]
  exact lookup_filter_ne p q fs.files

theorem pyEndsWith_append (s t : String) : pyEndsWith (s ++ t) t = true := by
  simp only [pyEndsWith, String.data_append, List.isSuffixOf_iff_suffix]
  exact List.suffix_append s.data t.data

theorem pyEndsWith_append_left (a b t : String)
    (h : pyEndsWith b t = true) : pyEndsWith (a ++ b) t = true := by
  simp only [pyEndsWith, String.data_append, List.isSuffixOf_iff_suffix] at *
  exact h.trans (List.suffix_append a.data b.data)

theorem ne_of_ends_xmp {p q t : String} (hp : pyEndsWith p t = true)
    (hq : pyEndsWith q t = false) : q ≠ p := by
  intro h
  rw [h, hp] at hq
  exact Bool.noConfusion hq

theorem splitext_append (p : String) : (splitext p).1 ++ (splitext p).2 = p := by
  rw [splitext]
  split
  · split
    · show (p.data.take _).asString ++ (p.data.drop _).asString = p
      have h : ∀ (l1 l2 : List Char), l1.asString ++ l2.asString = (l1 ++ l2).asString :=
        fun _ _ => rfl
      rw [h, List.take_append_drop]
      exact String.asString_toList p
    · simp
  · simp

theorem handle_file_xmp_noop (fs : FS) (sf pn : String) (sfx : Nat) (od : String)
    (mv : Bool) (h1 : fs.isFile (sf ++ ".xmp") = false)
    (h2 : fs.isFile ((splitext sf).1 ++ ".xmp") = false) :
    handle_file_xmp fs sf pn sfx od mv = fs := by
  simp [handle_file_xmp, h1, h2]

theorem handle_file_xmp_read (fs : FS) (sf pn : String) (sfx : Nat) (od : String)
    (mv : Bool) (q : String) (hq : pyEndsWith q ".xmp" = false) :
    (handle_file_xmp fs sf pn sfx od mv).read q = fs.read q := by
  have hxq : ∀ a : String, q ≠ a ++ ".xmp" :=
    fun a => ne_of_ends_xmp (pyEndsWith_append a ".xmp") hq
  have hxq2 : ∀ a b : String, q ≠ a ++ "/" ++ (b ++ ".xmp") := by
    intro a b
    exact ne_of_ends_xmp
      (pyEndsWith_append_left (a ++ "/") (b ++ ".xmp") ".xmp"
        (pyEndsWith_append b ".xmp")) hq
  by_cases h1 : fs.isFile (sf ++ ".xmp")
  · obtain ⟨c, hc⟩ := Option.isSome_iff_exists.mp (by simpa [FS.isFile] using h1)
    simp only [handle_file_xmp, h1, if_pos, hc]
    by_cases hmv : mv
    · simp only [hmv, if_pos]
      rw [FS.read_write, if_neg (hxq2 od _), FS.read_remove, if_neg (hxq sf)]
    · simp only [hmv, if_neg, Bool.false_eq_true, if_false]
      rw [FS.read_write, if_neg (hxq2 od _)]
  · have h1' : fs.isFile (sf ++ ".xmp") = false := by
      simpa using h1
    by_cases h2 : fs.isFile ((splitext sf).1 ++ ".xmp")
    · obtain ⟨c, hc⟩ := Option.isSome_iff_exists.mp (by simpa [FS.isFile] using h2)
      simp only [handle_file_xmp, h1', Bool.false_eq_true, if_false, h2, if_pos, hc]
      by_cases hmv : mv
      · simp only [hmv, if_pos]
        rw [FS.read_write, if_neg (hxq2 od _), FS.read_remove,
          if_neg (hxq (splitext sf).1)]
      · simp only [hmv, if_neg, Bool.false_eq_true, if_false]
        rw [FS.read_write, if_neg (hxq2 od _)]
    · have h2' : fs.isFile ((splitext sf).1 ++ ".xmp") = false := by
        simpa using h2
      rw [handle_file_xmp_noop fs sf pn sfx od mv h1' h2']

theorem sha256_checksum_ok {fs : FS} {src c : String} (h : fs.read src = some c) :
    sha256_checksum fs src = .ok (sha256_hex c) := by
  simp [sha256_checksum, h]

theorem placeLoop_duplicate_inv (fs : FS) (src tfp tn od : String) (mv : Bool) :
    ∀ fuel suffix fs',
      placeLoop fs src tfp tn od mv fuel suffix = .ok (.duplicate, fs') →
      fs' = fs ∧ ∃ n c ct, suffix ≤ n ∧ fs.read src = some c ∧
        fs.read (candidate tfp n) = some ct ∧ sha256_hex ct = sha256_hex c := by
  intro fuel
  induction fuel with
  | zero =>
    intro suffix fs' h
    simp [placeLoop] at h
  | succ fuel ih =>
    intro suffix fs' h
    rw [placeLoop] at h
    by_cases hocc : fs.isFile (candidate tfp suffix) = true
    · rw [if_pos hocc] at h
      obtain ⟨ct, hct⟩ := Option.isSome_iff_exists.mp (by simpa [FS.isFile] using hocc)
      cases hrs : fs.read src with
      | none => simp [sha256_checksum, hrs, hct] at h
      | some c =>
        simp only [sha256_checksum, hrs, hct] at h
        by_cases heq : sha256_hex c = sha256_hex ct
        · rw [if_pos heq] at h
          have h2 := h
          simp only [Except.ok.injEq, Prod.mk.injEq] at h2
          exact ⟨h2.2.symm, suffix, c, ct, le_refl _, rfl, hct, heq.symm⟩
        · rw [if_neg heq] at h
          obtain ⟨hfs, n, c', ct', hn, h1, h2, h3⟩ := ih (suffix + 1) fs' h
          exact ⟨hfs, n, c', ct', le_trans (Nat.le_succ _) hn, hrs.symm.trans h1, h2, h3⟩
    · rw [if_neg hocc] at h
      cases hrs : fs.read src with
      | none => simp [hrs] at h
      | some c =>
        simp only [hrs] at h
        exfalso
        cases mv <;> simp at h

theorem placeLoop_write_inv (fs : FS) (src tfp tn od : String) (mv : Bool) :
    ∀ fuel suffix o fs',
      placeLoop fs src tfp tn od mv fuel suffix = .ok (o, fs') →
      o ≠ .duplicate →
      ∃ n c, suffix ≤ n ∧ fs.read src = some c ∧
        fs.isFile (candidate tfp n) = false ∧
        o = (if mv then Outcome.moved else Outcome.copied) ∧
        fs' = handle_file_xmp
          (if mv then (fs.remove src).write (candidate tfp n) c
            else fs.write (candidate tfp n) c) src tn n od mv := by
  intro fuel
  induction fuel with
  | zero =>
    intro suffix o fs' h _
    simp [placeLoop] at h
  | succ fuel ih =>
    intro suffix o fs' h ho
    rw [placeLoop] at h
    by_cases hocc : fs.isFile (candidate tfp suffix) = true
    · rw [if_pos hocc] at h
      obtain ⟨ct, hct⟩ := Option.isSome_iff_exists.mp (by simpa [FS.isFile] using hocc)
      cases hrs : fs.read src with
      | none => simp [sha256_checksum, hrs, hct] at h
      | some c =>
        simp only [sha256_checksum, hrs, hct] at h
        by_cases heq : sha256_hex c = sha256_hex ct
        · rw [if_pos heq] at h
          have h2 := h
          simp only [Except.ok.injEq, Prod.mk.injEq] at h2
          exact absurd h2.1.symm ho
        · rw [if_neg heq] at h
          obtain ⟨n, c', hn, h1, h2, h3, h4⟩ := ih (suffix + 1) o fs' h ho
          exact ⟨n, c', le_trans (Nat.le_succ _) hn, hrs.symm.trans h1, h2, h3, h4⟩
    · rw [if_neg hocc] at h
      cases hrs : fs.read src with
      | none => simp [hrs] at h
      | some c =>
        simp only [hrs] at h
        have h2 := h
        simp only [Except.ok.injEq, Prod.mk.injEq] at h2
        refine ⟨suffix, c, le_refl _, rfl, ?_, h2.1.symm, h2.2.symm⟩
        simpa using hocc

theorem placeLoop_free_hit (fs : FS) (src tfp tn od : String) (mv : Bool)
    (k : Nat) (c : String) (hsrc : fs.read src = some c)
    (hocc : ∀ n, 1 ≤ n → (fs.isFile (candidate tfp n) = true ↔ n ≤ k))
    (hdiff : ∀ n ct, 1 ≤ n → fs.read (candidate tfp n) = some ct →
      sha256_hex ct ≠ sha256_hex c) :
    ∀ d j fuel, 1 ≤ j → j + d = k + 1 → d < fuel →
      placeLoop fs src tfp tn od mv fuel j =
        .ok ((if mv then Outcome.moved else Outcome.copied),
          handle_file_xmp
            (if mv then (fs.remove src).write (candidate tfp (k + 1)) c
              else fs.write (candidate tfp (k + 1)) c) src tn (k + 1) od mv) := by
  intro d
  induction d with
  | zero =>
    intro j fuel hj hjd hf
    have hjk : j = k + 1 := by omega
    subst hjk
    cases fuel with
    | zero => omega
    | succ fuel =>
      rw [placeLoop]
      have hfree : fs.isFile (candidate tfp (k + 1)) = false := by
        cases hb : fs.isFile (candidate tfp (k + 1)) with
        | false => rfl
        | true => exact absurd ((hocc (k + 1) (by omega)).mp hb) (by omega)
      rw [if_neg (by simp [hfree])]
      rw [hsrc]
  | succ d ihd =>
    intro j fuel hj hjd hf
    cases fuel with
    | zero => omega
    | succ fuel =>
      rw [placeLoop]
      have hoccj : fs.isFile (candidate tfp j) = true :=
        (hocc j hj).mpr (by omega)
      obtain ⟨ct, hct⟩ := Option.isSome_iff_exists.mp
        (by simpa [FS.isFile] using hoccj)
      rw [if_pos hoccj]
      rw [sha256_checksum_ok hsrc, sha256_checksum_ok hct]
      have hne : ¬ (sha256_hex c = sha256_hex ct) := fun h => hdiff j ct hj hct h.symm
      dsimp only
      rw [if_neg hne]
      exact ihd (j + 1) fuel (by omega) (by omega) (by omega)

theorem placeLoop_dup_hit (fs : FS) (src tfp tn od : String) (mv : Bool)
    (m : Nat) (c ctm : String) (hsrc : fs.read src = some c)
    (hm : fs.read (candidate tfp m) = some ctm)
    (heq : sha256_hex ctm = sha256_hex c)
    (hocc : ∀ n, 1 ≤ n → n < m → fs.isFile (candidate tfp n) = true)
    (hdiff : ∀ n ct, 1 ≤ n → n < m → fs.read (candidate tfp n) = some ct →
      sha256_hex ct ≠ sha256_hex c) :
    ∀ d j fuel, 1 ≤ j → j + d = m → d < fuel →
      placeLoop fs src tfp tn od mv fuel j = .ok (.duplicate, fs) := by
  intro d
  induction d with
  | zero =>
    intro j fuel hj hjd hf
    have hjm : j = m := by omega
    subst hjm
    cases fuel with
    | zero => omega
    | succ fuel =>
      rw [placeLoop]
      have hoccm : fs.isFile (candidate tfp j) = true := by
        simp [FS.isFile, hm]
      rw [if_pos hoccm, sha256_checksum_ok hsrc, sha256_checksum_ok hm]
      dsimp only
      rw [if_pos heq.symm]
  | succ d ihd =>
    intro j fuel hj hjd hf
    cases fuel with
    | zero => omega
    | succ fuel =>
      rw [placeLoop]
      have hoccj : fs.isFile (candidate tfp j) = true :=
        hocc j hj (by omega)
      obtain ⟨ct, hct⟩ := Option.isSome_iff_exists.mp
        (by simpa [FS.isFile] using hoccj)
      rw [if_pos hoccj, sha256_checksum_ok hsrc, sha256_checksum_ok hct]
      have hne : ¬ (sha256_hex c = sha256_hex ct) :=
        fun h => hdiff j ct hj (by omega) hct h.symm
      dsimp only
      rw [if_neg hne]
      exact ihd (j + 1) fuel (by omega) (by omega) (by omega)

theorem toDigitsCore_eq_toDigitsRec :
    ∀ f n acc, n < f → Nat.toDigitsCore 10 f n acc = toDigitsRec n ++ acc := by
  intro f
  induction f with
  | zero => intro n acc h; omega
  | succ f ih =>
    intro n acc h
    rw [Nat.toDigitsCore]
    by_cases h10 : n / 10 = 0
    · rw [toDigitsRec, dif_pos h10]
      simp [h10]
    · have hn10 : n ≥ 10 := by
        by_contra hlt
        exact h10 (Nat.div_eq_of_lt (by omega))
      have hlt : n / 10 < f := by
        have := Nat.div_lt_self (by omega : 0 < n) (by omega : 1 < 10)
        omega
      rw [toDigitsRec, dif_neg h10]
      simp only [h10, if_false]
      rw [ih (n / 10) _ hlt, List.append_assoc]
      rfl

theorem natRepr_eq_toDigitsRec (n : Nat) : Nat.repr n = (toDigitsRec n).asString := by
  show (Nat.toDigits 10 n).asString = _
  rw [Nat.toDigits, toDigitsCore_eq_toDigitsRec (n + 1) n [] (Nat.lt_succ_self n),
    List.append_nil]

theorem rVal_append_singleton (l : List Char) (c : Char) :
    rVal (l ++ [c]) = rVal l * 10 + dval c := by
  simp [rVal, List.foldl_append]

theorem dval_digitChar : ∀ d, d < 10 → dval (Nat.digitChar d) = d := by
  decide

theorem rVal_toDigitsRec (n : Nat) : rVal (toDigitsRec n) = n := by
  induction n using Nat.strong_induction_on with
  | _ n ih =>
    rw [toDigitsRec]
    by_cases h10 : n / 10 = 0
    · rw [dif_pos h10]
      have hn : n < 10 := by
        by_contra hge
        have h1 : 1 ≤ n / 10 := (Nat.le_div_iff_mul_le (by omega)).mpr (by omega)
        omega
      rw [Nat.mod_eq_of_lt hn]
      show 0 * 10 + dval (Nat.digitChar n) = n
      rw [dval_digitChar n hn]
      omega
    · rw [dif_neg h10]
      rw [rVal_append_singleton,
        ih (n / 10) (Nat.div_lt_self (by omega) (by omega)),
        dval_digitChar _ (Nat.mod_lt _ (by omega))]
      omega

theorem natRepr_injective {n m : Nat} (h : Nat.repr n = Nat.repr m) : n = m := by
  rw [natRepr_eq_toDigitsRec, natRepr_eq_toDigitsRec] at h
  have := List.asString_inj.mp h
  calc n = rVal (toDigitsRec n) := (rVal_toDigitsRec n).symm
    _ = rVal (toDigitsRec m) := by rw [this]
    _ = m := rVal_toDigitsRec m

theorem candidate_ne_one (tfp : String) (n : Nat) (hn : 2 ≤ n) :
    candidate tfp n ≠ candidate tfp 1 := by
  rw [candidate, candidate, if_pos rfl, if_neg (by omega : ¬ n = 1)]
  intro h
  have hlen := congrArg String.length h
  rw [String.length_append, String.length_append, String.length_append] at hlen
  have h2 := congrArg String.length (splitext_append tfp)
  rw [String.length_append] at h2
  have hdash : ("-" : String).length = 1 := by decide
  omega

theorem candidate_inj_ge_two (tfp : String) {n m : Nat} (hn : 2 ≤ n) (hm : 2 ≤ m)
    (h : candidate tfp n = candidate tfp m) : n = m := by
  rw [candidate, candidate, if_neg (by omega : ¬ n = 1),
    if_neg (by omega : ¬ m = 1)] at h
  have hd := congrArg String.data h
  simp only [String.data_append] at hd
  rw [List.append_assoc, List.append_assoc, List.append_assoc,
    List.append_assoc] at hd
  have h1 := List.append_cancel_left hd
  have h2 := List.append_cancel_left h1
  have h3 := List.append_cancel_right h2
  exact natRepr_injective (String.ext h3)

theorem candidate_inj (tfp : String) {n m : Nat} (hn : 1 ≤ n) (hm : 1 ≤ m)
    (h : candidate tfp n = candidate tfp m) : n = m := by
  by_cases h1 : n = 1 <;> by_cases h2 : m = 1
  · omega
  · exact absurd h.symm (candidate_ne_one tfp m (by omega) |>.imp fun x => h1 ▸ x)
  · exact absurd h (candidate_ne_one tfp n (by omega) |>.imp fun x => h2 ▸ x)
  · exact candidate_inj_ge_two tfp (by omega) (by omega) h

theorem lookup_mem_keys {l : List (String × String)} {a b : String}
    (h : l.lookup a = some b) : a ∈ l.map Prod.fst := by
  induction l with
  | nil => simp [List.lookup] at h
  | cons e t ih =>
    obtain ⟨k, v⟩ := e
    by_cases hak : a = k
    · simp [hak]
    · rw [lookup_cons_ne v t hak] at h
      simp [ih h]

theorem occupied_le_size (fs : FS) (tfp : String) (k : Nat)
    (hocc : ∀ n, 1 ≤ n → n ≤ k → fs.isFile (candidate tfp n) = true) :
    k ≤ fs.files.length := by
  have hmap : ((List.range' 1 k).map (candidate tfp)).Nodup := by
    apply List.Nodup.map_on _ (List.nodup_range' 1 k)
    intro x hx y hy hxy
    rw [List.mem_range'_1] at hx hy
    exact candidate_inj tfp hx.1 hy.1 hxy
  have hsub : ((List.range' 1 k).map (candidate tfp)) ⊆ fs.files.map Prod.fst := by
    intro x hx
    obtain ⟨n, hn, rfl⟩ := List.mem_map.mp hx
    rw [List.mem_range'_1] at hn
    have hocc' := hocc n hn.1 (by omega)
    obtain ⟨c, hc⟩ := Option.isSome_iff_exists.mp
      (by simpa [FS.isFile] using hocc')
    exact lookup_mem_keys hc
  have := (hmap.subperm hsub).length_le
  simpa using this

theorem pySplit_no_sep (sep : Char) :
    ∀ cs : List Char, sep ∉ cs → pySplit sep cs = [cs] := by
  intro cs h
  induction cs with
  | nil => rfl
  | cons c rest ih =>
    have hc : ¬ c = sep := by
      intro hc
      exact h (by rw [hc]; exact List.mem_cons_self sep rest)
    rw [pySplit, ih (fun hm => h (List.mem_cons_of_mem c hm))]
    dsimp only
    rw [if_neg hc]

theorem pySplit_single_sep (sep : Char) :
    ∀ l1 l2 : List Char, sep ∉ l1 → sep ∉ l2 →
      pySplit sep (l1 ++ sep :: l2) = [l1, l2] := by
  intro l1
  induction l1 with
  | nil =>
    intro l2 _ h2
    rw [List.nil_append, pySplit, pySplit_no_sep sep l2 h2]
    dsimp only
    rw [if_pos rfl]
  | cons c rest ih =>
    intro l2 h1 h2
    have hc : ¬ c = sep := by
      intro hc
      exact h1 (by rw [hc]; exact List.mem_cons_self sep rest)
    rw [List.cons_append, pySplit,
      ih l2 (fun hm => h1 (List.mem_cons_of_mem c hm)) h2]
    dsimp only
    rw [if_neg hc]

theorem handle_file_inv (fs : FS) (src out fmt : String) (mv : Bool)
    (regex : Option PyRegex) (exif : Option MetadataMap) (o : Outcome) (fs' : FS)
    (h : handle_file fs src out fmt mv regex exif = .ok (o, fs')) :
    (pyEndsWith src ".xmp" = true ∧ o = .other ∧ fs' = fs) ∨
    (pyEndsWith src ".xmp" = false ∧ ∃ d od tn,
      planTarget src out fmt regex exif = .ok (d, od, tn) ∧
      placeLoop fs src (od ++ "/" ++ tn) tn od mv (fs.files.length + 2) 1 =
        .ok (o, fs')) := by
  by_cases hx : pyEndsWith src ".xmp" = true
  · rw [handle_file, if_pos hx] at h
    have h2 := h
    simp only [Except.ok.injEq, Prod.mk.injEq] at h2
    exact Or.inl ⟨hx, h2.1.symm, h2.2.symm⟩
  · have hx' : pyEndsWith src ".xmp" = false := by
      simpa using hx
    rw [handle_file, if_neg (by simp [hx'])] at h
    cases hp : planTarget src out fmt regex exif with
    | error e => rw [hp] at h; exact absurd h (by simp)
    | ok t =>
      obtain ⟨d, od, tn⟩ := t
      rw [hp] at h
      exact Or.inr ⟨hx', d, od, tn, rfl, h⟩

theorem handle_file2_inv (fs : FS) (src out fmt : String) (mv : Bool)
    (regex : Option PyRegex) (exif : Option MetadataMap) (o : Outcome) (fs' : FS)
    (h : handle_file2 fs src out fmt mv regex exif = .ok (o, fs')) :
    (o = .duplicate ∧ fs' = fs) ∨
    (∃ target c, fs.read src = some c ∧ fs.isFile target = false ∧
      o = (if mv then Outcome.moved else Outcome.copied) ∧
      fs' = (if mv then (fs.remove src).write target c
        else fs.write target c)) := by
  rw [handle_file2] at h
  cases hsha : sha256_checksum fs src with
  | error e => rw [hsha] at h; exact absurd h (by simp)
  | ok hs =>
    rw [hsha] at h
    cases hiiv : is_image_or_video exif with
    | error e => rw [hiiv] at h; exact absurd h (by simp)
    | ok media =>
      rw [hiiv] at h
      dsimp only at h
      set target := (if media = true then
          (get_output_dir (get_date src (exif.getD []) regex true) out fmt,
            hs ++ (splitext (basename src)).2)
        else (get_output_dir none out fmt, basename src)).1 ++ "/" ++
          (if media = true then
            (get_output_dir (get_date src (exif.getD []) regex true) out fmt,
              hs ++ (splitext (basename src)).2)
          else (get_output_dir none out fmt, basename src)).2 with htarget
      by_cases hocc : fs.isFile target = true
      · rw [if_pos hocc] at h
        have h2 := h
        simp only [Except.ok.injEq, Prod.mk.injEq] at h2
        exact Or.inl ⟨h2.1.symm, h2.2.symm⟩
      · rw [if_neg hocc] at h
        cases hrs : fs.read src with
        | none => rw [hrs] at h; exact absurd h (by simp)
        | some c =>
          rw [hrs] at h
          cases hmv : mv with
          | true =>
            rw [hmv] at h
            simp only [if_true, ite_true] at h ⊢
            have h2 := h
            simp only [Except.ok.injEq, Prod.mk.injEq] at h2
            exact Or.inr ⟨target, c, rfl, by simpa using hocc, h2.1.symm,
              h2.2.symm⟩
          | false =>
            rw [hmv] at h
            simp only [Bool.false_eq_true, if_false, ite_false] at h ⊢
            have h2 := h
            simp only [Except.ok.injEq, Prod.mk.injEq] at h2
            exact Or.inr ⟨target, c, rfl, by simpa using hocc, h2.1.symm,
              h2.2.symm⟩

theorem dchar_props : ∀ x, x < 10 →
    ((Nat.digitChar x).isDigit = true ∧ Nat.digitChar x ≠ '+' ∧
      Nat.digitChar x ≠ '-' ∧ Nat.digitChar x ≠ '.' ∧ Nat.digitChar x ≠ ':' ∧
      Nat.digitChar x ≠ ' ' ∧ (Nat.digitChar x).isWhitespace = false) := by
  decide

theorem isDigit_ne_dot {c : Char} (h : c.isDigit = true) : c ≠ '.' := by
  intro he
  rw [he] at h
  exact absurd h (by decide)

theorem toDigitsRec_le9 (x : Nat) (h : x ≤ 9) :
    toDigitsRec x = [Nat.digitChar x] := by
  rw [toDigitsRec, dif_pos (by omega : x / 10 = 0),
    Nat.mod_eq_of_lt (by omega)]

theorem toDigitsRec_le99 (x : Nat) (h1 : 10 ≤ x) (h2 : x ≤ 99) :
    toDigitsRec x = [Nat.digitChar (x / 10), Nat.digitChar (x % 10)] := by
  rw [toDigitsRec, dif_neg (by omega : ¬ x / 10 = 0),
    toDigitsRec_le9 (x / 10) (by omega)]
  rfl

theorem toDigitsRec_le999 (x : Nat) (h1 : 100 ≤ x) (h2 : x ≤ 999) :
    toDigitsRec x = [Nat.digitChar (x / 100), Nat.digitChar (x / 10 % 10),
      Nat.digitChar (x % 10)] := by
  rw [toDigitsRec, dif_neg (by omega : ¬ x / 10 = 0),
    toDigitsRec_le99 (x / 10) (by omega) (by omega)]
  have e1 : x / 10 / 10 = x / 100 := by omega
  have e2 : x / 10 % 10 = x / 10 % 10 := rfl
  rw [e1]
  rfl

theorem toDigitsRec_le9999 (x : Nat) (h1 : 1000 ≤ x) (h2 : x ≤ 9999) :
    toDigitsRec x = [Nat.digitChar (x / 1000), Nat.digitChar (x / 100 % 10),
      Nat.digitChar (x / 10 % 10), Nat.digitChar (x % 10)] := by
  rw [toDigitsRec, dif_neg (by omega : ¬ x / 10 = 0),
    toDigitsRec_le999 (x / 10) (by omega) (by omega)]
  have e1 : x / 10 / 100 = x / 1000 := by omega
  have e2 : x / 10 / 10 % 10 = x / 100 % 10 := by omega
  rw [e1, e2]
  rfl

theorem data_pad (k : Nat) (n : Nat) :
    (padZ k n).data = List.replicate (k - (Nat.repr n).length) '0' ++
      (toDigitsRec n) := by
  rw [padZ, String.data_append, natRepr_eq_toDigitsRec]
  rw [show ∀ l : List Char, l.asString.data = l from
    fun l => List.toList_asString l,
    show ∀ l : List Char, l.asString.data = l from
    fun l => List.toList_asString l]

theorem repr_length_le9 (n : Nat) (h : n ≤ 9) : (Nat.repr n).length = 1 := by
  rw [natRepr_eq_toDigitsRec, toDigitsRec_le9 n h]
  rfl

theorem repr_length_le99 (n : Nat) (h1 : 10 ≤ n) (h2 : n ≤ 99) :
    (Nat.repr n).length = 2 := by
  rw [natRepr_eq_toDigitsRec, toDigitsRec_le99 n h1 h2]
  rfl

theorem pad2_data (n : Nat) (h : n ≤ 99) :
    (padZ 2 n).data = [Nat.digitChar (n / 10), Nat.digitChar (n % 10)] := by
  by_cases h9 : n ≤ 9
  · rw [data_pad, repr_length_le9 n h9, toDigitsRec_le9 n h9]
    have e1 : n / 10 = 0 := by omega
    have e2 : n % 10 = n := by omega
    rw [e1, e2]
    rfl
  · rw [data_pad, repr_length_le99 n (by omega) h, toDigitsRec_le99 n
      (by omega) h]
    rfl

theorem pad4_data (n : Nat) (h : n ≤ 9999) :
    (padZ 4 n).data = [Nat.digitChar (n / 1000), Nat.digitChar (n / 100 % 10),
      Nat.digitChar (n / 10 % 10), Nat.digitChar (n % 10)] := by
  by_cases h9 : n ≤ 9
  · rw [data_pad, repr_length_le9 n h9, toDigitsRec_le9 n h9]
    have e1 : n / 1000 = 0 := by omega
    have e2 : n / 100 % 10 = 0 := by omega
    have e3 : n / 10 % 10 = 0 := by omega
    have e4 : n % 10 = n := by omega
    rw [e1, e2, e3, e4]
    rfl
  · by_cases h99 : n ≤ 99
    · rw [data_pad, repr_length_le99 n (by omega) h99,
        toDigitsRec_le99 n (by omega) h99]
      have e1 : n / 1000 = 0 := by omega
      have e2 : n / 100 % 10 = 0 := by omega
      have e3 : n / 10 % 10 = n / 10 := by omega
      rw [e1, e2, e3]
      rfl
    · by_cases h999 : n ≤ 999
      · have hlen : (Nat.repr n).length = 3 := by
          rw [natRepr_eq_toDigitsRec, toDigitsRec_le999 n (by omega) h999]
          rfl
        rw [data_pad, hlen, toDigitsRec_le999 n (by omega) h999]
        have e1 : n / 1000 = 0 := by omega
        have e2 : n / 100 % 10 = n / 100 := by omega
        rw [e1, e2]
        rfl
      · have hlen : (Nat.repr n).length = 4 := by
          rw [natRepr_eq_toDigitsRec, toDigitsRec_le9999 n (by omega) h]
          rfl
        rw [data_pad, hlen, toDigitsRec_le9999 n (by omega) h]
        rfl

theorem firstSome_cons_some {a : α} {t : List α} {f : α → Option β} {b : β}
    (h : f a = some b) : firstSome (a :: t) f = some b := by
  rw [firstSome, h]

theorem month_two_digit_cond : ∀ mo, mo < 13 → 1 ≤ mo →
    ((Nat.digitChar (mo / 10) = '1' ∧ '0' ≤ Nat.digitChar (mo % 10) ∧
        Nat.digitChar (mo % 10) ≤ '2') ∨
      (Nat.digitChar (mo / 10) = '0' ∧ '1' ≤ Nat.digitChar (mo % 10) ∧
        Nat.digitChar (mo % 10) ≤ '9')) := by
  decide

theorem day_two_digit_cond : ∀ d, d < 32 → 1 ≤ d →
    ((Nat.digitChar (d / 10) = '3' ∧ '0' ≤ Nat.digitChar (d % 10) ∧
        Nat.digitChar (d % 10) ≤ '1') ∨
      (('1' ≤ Nat.digitChar (d / 10) ∧ Nat.digitChar (d / 10) ≤ '2') ∧
        (Nat.digitChar (d % 10)).isDigit) ∨
      (Nat.digitChar (d / 10) = '0' ∧ '1' ≤ Nat.digitChar (d % 10) ∧
        Nat.digitChar (d % 10) ≤ '9')) := by
  decide

theorem hour_two_digit_cond : ∀ h, h < 24 →
    ((Nat.digitChar (h / 10) = '2' ∧ '0' ≤ Nat.digitChar (h % 10) ∧
        Nat.digitChar (h % 10) ≤ '3') ∨
      (('0' ≤ Nat.digitChar (h / 10) ∧ Nat.digitChar (h / 10) ≤ '1') ∧
        (Nat.digitChar (h % 10)).isDigit)) := by
  decide

theorem minute_two_digit_cond : ∀ mi, mi < 60 →
    (('0' ≤ Nat.digitChar (mi / 10) ∧ Nat.digitChar (mi / 10) ≤ '5') ∧
      (Nat.digitChar (mi % 10)).isDigit) := by
  decide

theorem second_two_digit_cond : ∀ s, s < 60 →
    ((Nat.digitChar (s / 10) = '6' ∧ '0' ≤ Nat.digitChar (s % 10) ∧
        Nat.digitChar (s % 10) ≤ '1') ∨
      (('0' ≤ Nat.digitChar (s / 10) ∧ Nat.digitChar (s / 10) ≤ '5') ∧
        (Nat.digitChar (s % 10)).isDigit)) := by
  decide

theorem yearCands_pad (y : Nat) (hy : y ≤ 9999) (rest : List Char) :
    yearCands ((padZ 4 y).data ++ rest) = [(y, rest)] := by
  rw [pad4_data y hy]
  show yearCands (_ :: _ :: _ :: _ :: rest) = _
  rw [yearCands]
  rw [if_pos ⟨(dchar_props _ (by omega)).1, (dchar_props _ (by omega)).1,
    (dchar_props _ (by omega)).1, (dchar_props _ (by omega)).1⟩]
  rw [dval_digitChar _ (by omega), dval_digitChar _ (by omega),
    dval_digitChar _ (by omega), dval_digitChar _ (by omega)]
  have e : ((y / 1000 * 10 + y / 100 % 10) * 10 + y / 10 % 10) * 10 + y % 10 =
      y := by omega
  rw [e]

theorem monthCands_pad (mo : Nat) (h1 : 1 ≤ mo) (h2 : mo ≤ 12)
    (rest : List Char) :
    ∃ tail, monthCands ((padZ 2 mo).data ++ rest) = (mo, rest) :: tail := by
  rw [pad2_data mo (by omega)]
  show ∃ tail, monthCands (_ :: _ :: rest) = _
  rw [monthCands]
  rw [if_pos (month_two_digit_cond mo (by omega) h1)]
  rw [dval_digitChar _ (by omega), dval_digitChar _ (by omega)]
  have e : mo / 10 * 10 + mo % 10 = mo := by omega
  rw [e]
  exact ⟨_, rfl⟩

theorem dayCands_pad (d : Nat) (h1 : 1 ≤ d) (h2 : d ≤ 31)
    (rest : List Char) :
    ∃ tail, dayCands ((padZ 2 d).data ++ rest) = (d, rest) :: tail := by
  rw [pad2_data d (by omega)]
  show ∃ tail, dayCands (_ :: _ :: rest) = _
  rw [dayCands]
  rw [if_pos (day_two_digit_cond d (by omega) h1)]
  rw [dval_digitChar _ (by omega), dval_digitChar _ (by omega)]
  have e : d / 10 * 10 + d % 10 = d := by omega
  rw [e]
  exact ⟨_, rfl⟩

theorem hourCands_pad (h : Nat) (h2 : h ≤ 23) (rest : List Char) :
    ∃ tail, hourCands ((padZ 2 h).data ++ rest) = (h, rest) :: tail := by
  rw [pad2_data h (by omega)]
  show ∃ tail, hourCands (_ :: _ :: rest) = _
  rw [hourCands]
  rw [if_pos (hour_two_digit_cond h (by omega))]
  rw [dval_digitChar _ (by omega), dval_digitChar _ (by omega)]
  have e : h / 10 * 10 + h % 10 = h := by omega
  rw [e]
  exact ⟨_, rfl⟩

theorem minuteCands_pad (mi : Nat) (h2 : mi ≤ 59) (rest : List Char) :
    ∃ tail, minuteCands ((padZ 2 mi).data ++ rest) = (mi, rest) :: tail := by
  rw [pad2_data mi (by omega)]
  show ∃ tail, minuteCands (_ :: _ :: rest) = _
  rw [minuteCands]
  rw [if_pos (minute_two_digit_cond mi (by omega))]
  rw [dval_digitChar _ (by omega), dval_digitChar _ (by omega)]
  have e : mi / 10 * 10 + mi % 10 = mi := by omega
  rw [e]
  exact ⟨_, rfl⟩

theorem secondCands_pad (s : Nat) (h2 : s ≤ 59) (rest : List Char) :
    ∃ tail, secondCands ((padZ 2 s).data ++ rest) = (s, rest) :: tail := by
  rw [pad2_data s (by omega)]
  show ∃ tail, secondCands (_ :: _ :: rest) = _
  rw [secondCands]
  rw [if_pos (second_two_digit_cond s (by omega))]
  rw [dval_digitChar _ (by omega), dval_digitChar _ (by omega)]
  have e : s / 10 * 10 + s % 10 = s := by omega
  rw [e]
  exact ⟨_, rfl⟩

theorem parseTimeTail_canonical (h mi s : Nat) (hh2 : h ≤ 23) (hmi2 : mi ≤ 59)
    (hs2 : s ≤ 59) :
    parseTimeTail ((padZ 2 h).data ++ ':' ::
      ((padZ 2 mi).data ++ ':' :: (padZ 2 s).data)) = some (h, mi, s) := by
  obtain ⟨tailh, hH⟩ := hourCands_pad h hh2
    (':' :: ((padZ 2 mi).data ++ ':' :: (padZ 2 s).data))
  rw [parseTimeTail, hH]
  apply firstSome_cons_some
  dsimp only
  rw [if_pos rfl]
  obtain ⟨tailm, hM⟩ := minuteCands_pad mi hmi2 (':' :: (padZ 2 s).data)
  rw [hM]
  apply firstSome_cons_some
  dsimp only
  rw [if_pos rfl]
  obtain ⟨tails, hS⟩ := secondCands_pad s hs2 []
  rw [List.append_nil] at hS
  rw [hS]
  apply firstSome_cons_some
  dsimp only
  rw [if_pos rfl]

theorem wsRests_pad2_head (n : Nat) (hn : n ≤ 99) (rest : List Char) :
    wsRests ((padZ 2 n).data ++ rest) = [] := by
  rw [pad2_data n hn]
  show wsRests (_ :: _) = []
  rw [wsRests, if_neg]
  simp [(dchar_props (n / 10) (by omega)).2.2.2.2.2.2]

theorem pyStrptimeFields_canonical (y mo d h mi s : Nat)
    (hy : y ≤ 9999) (hmo1 : 1 ≤ mo) (hmo2 : mo ≤ 12) (hd1 : 1 ≤ d)
    (hd2 : d ≤ 31) (hh2 : h ≤ 23) (hmi2 : mi ≤ 59) (hs2 : s ≤ 59) :
    pyStrptimeFields ':' ((padZ 4 y).data ++ ':' :: ((padZ 2 mo).data ++ ':' ::
      ((padZ 2 d).data ++ ' ' :: ((padZ 2 h).data ++ ':' ::
      ((padZ 2 mi).data ++ ':' :: (padZ 2 s).data))))) =
      some (y, mo, d, h, mi, s) := by
  rw [pyStrptimeFields, yearCands_pad y hy]
  apply firstSome_cons_some
  dsimp only
  rw [if_pos rfl]
  obtain ⟨tailm, hM⟩ := monthCands_pad mo hmo1 hmo2 (':' :: ((padZ 2 d).data ++
    ' ' :: ((padZ 2 h).data ++ ':' :: ((padZ 2 mi).data ++ ':' ::
    (padZ 2 s).data))))
  rw [hM]
  apply firstSome_cons_some
  dsimp only
  rw [if_pos rfl]
  obtain ⟨taild, hD⟩ := dayCands_pad d hd1 hd2 (' ' :: ((padZ 2 h).data ++ ':'
    :: ((padZ 2 mi).data ++ ':' :: (padZ 2 s).data)))
  rw [hD]
  apply firstSome_cons_some
  dsimp only
  rw [wsRests, if_pos (by decide),
    wsRests_pad2_head h (by omega), List.nil_append]
  apply firstSome_cons_some
  rw [parseTimeTail_canonical h mi s hh2 hmi2 hs2]
  rfl

theorem daysInMonth_le31 (y m : Nat) : daysInMonth y m ≤ 31 := by
  rw [daysInMonth]
  split
  · split <;> omega
  · split <;> omega

theorem mkDatetime_nat (y mo d h mi s : Nat) (h1 : 1 ≤ y) (h2 : y ≤ 9999)
    (h3 : 1 ≤ mo) (h4 : mo ≤ 12) (h5 : 1 ≤ d) (h6 : d ≤ daysInMonth y mo)
    (h7 : h ≤ 23) (h8 : mi ≤ 59) (h9 : s ≤ 59) :
    mkDatetime (y : Int) (mo : Int) (d : Int) (h : Int) (mi : Int) (s : Int) =
      some ⟨y, mo, d, h, mi, s⟩ := by
  rw [mkDatetime, if_pos]
  · simp
  · refine ⟨by exact_mod_cast h1, by exact_mod_cast h2, by exact_mod_cast h3,
      by exact_mod_cast h4, by exact_mod_cast h5, ?_,
      by positivity, by exact_mod_cast h7, by positivity,
      by exact_mod_cast h8, by positivity, by exact_mod_cast h9⟩
    rw [Int.toNat_natCast, Int.toNat_natCast]
    exact_mod_cast h6

theorem pyStrptime_canonical (y mo d h mi s : Nat)
    (h1 : 1 ≤ y) (h2 : y ≤ 9999) (h3 : 1 ≤ mo) (h4 : mo ≤ 12) (h5 : 1 ≤ d)
    (h6 : d ≤ daysInMonth y mo) (h7 : h ≤ 23) (h8 : mi ≤ 59) (h9 : s ≤ 59) :
    pyStrptime ':' ((padZ 4 y).data ++ ':' :: ((padZ 2 mo).data ++ ':' ::
      ((padZ 2 d).data ++ ' ' :: ((padZ 2 h).data ++ ':' ::
      ((padZ 2 mi).data ++ ':' :: (padZ 2 s).data))))) =
      some ⟨y, mo, d, h, mi, s⟩ := by
  rw [pyStrptime, pyStrptimeFields_canonical y mo d h mi s h2 h3 h4 h5
    (le_trans h6 (daysInMonth_le31 y mo)) h7 h8 h9]
  exact mkDatetime_nat y mo d h mi s h1 h2 h3 h4 h5 h6 h7 h8 h9

theorem tzWindow_false_head (c : Char) (hc : ¬ (c = '+' ∨ c = '-'))
    (rest : List Char) : tzWindow (c :: rest) = false := by
  cases rest with
  | nil => rfl
  | cons x1 t1 =>
    cases t1 with
    | nil => rfl
    | cons x2 t2 =>
      cases t2 with
      | nil => rfl
      | cons x3 t3 =>
        cases t3 with
        | nil => rfl
        | cons x4 t4 =>
          cases t4 with
          | nil => rfl
          | cons x5 t5 =>
            rw [tzWindow]
            simp only [decide_eq_false_iff_not]
            intro hcon
            exact hc hcon.1

theorem lastTzIdx_none (cs : List Char)
    (h : ∀ c ∈ cs, ¬ (c = '+' ∨ c = '-')) : lastTzIdx cs = none := by
  induction cs with
  | nil => rfl
  | cons c rest ih =>
    rw [lastTzIdx, ih (fun x hx => h x (List.mem_cons_of_mem c hx))]
    dsimp only
    rw [if_neg]
    rw [tzWindow_false_head c (h c (List.mem_cons_self c rest)) rest]
    simp

theorem isDigit_ne_plus {c : Char} (h : c.isDigit = true) : c ≠ '+' := by
  intro he
  rw [he] at h
  exact absurd h (by decide)

theorem isDigit_ne_minus {c : Char} (h : c.isDigit = true) : c ≠ '-' := by
  intro he
  rw [he] at h
  exact absurd h (by decide)

theorem pad2_chars (n : Nat) (h : n ≤ 99) :
    ∀ c ∈ (padZ 2 n).data, c.isDigit = true := by
  rw [pad2_data n h]
  intro c hc
  simp only [List.mem_cons, List.not_mem_nil, or_false] at hc
  rcases hc with rfl | rfl
  · exact (dchar_props _ (by omega)).1
  · exact (dchar_props _ (by omega)).1

theorem pad4_chars (n : Nat) (h : n ≤ 9999) :
    ∀ c ∈ (padZ 4 n).data, c.isDigit = true := by
  rw [pad4_data n h]
  intro c hc
  simp only [List.mem_cons, List.not_mem_nil, or_false] at hc
  rcases hc with rfl | rfl | rfl | rfl
  · exact (dchar_props _ (by omega)).1
  · exact (dchar_props _ (by omega)).1
  · exact (dchar_props _ (by omega)).1
  · exact (dchar_props _ (by omega)).1

theorem canonical_data (y mo d h mi s : Nat) :
    (padZ 4 y ++ ":" ++ padZ 2 mo ++ ":" ++ padZ 2 d ++ " " ++ padZ 2 h ++ ":"
      ++ padZ 2 mi ++ ":" ++ padZ 2 s).data =
      (padZ 4 y).data ++ ':' :: ((padZ 2 mo).data ++ ':' :: ((padZ 2 d).data ++
        ' ' :: ((padZ 2 h).data ++ ':' :: ((padZ 2 mi).data ++ ':' ::
        (padZ 2 s).data)))) := by
  simp only [String.data_append, List.append_assoc]
  rfl

theorem canonical_chars (y mo d h mi s : Nat) (hy : y ≤ 9999) (hmo : mo ≤ 99)
    (hd : d ≤ 99) (hh : h ≤ 99) (hmi : mi ≤ 99) (hs : s ≤ 99) :
    ∀ c ∈ ((padZ 4 y).data ++ ':' :: ((padZ 2 mo).data ++ ':' ::
      ((padZ 2 d).data ++ ' ' :: ((padZ 2 h).data ++ ':' ::
      ((padZ 2 mi).data ++ ':' :: (padZ 2 s).data))))),
      c.isDigit = true ∨ c = ':' ∨ c = ' ' := by
  intro c hc
  rcases List.mem_append.mp hc with h1 | h1
  · exact Or.inl (pad4_chars y hy c h1)
  rcases List.mem_cons.mp h1 with rfl | h1
  · exact Or.inr (Or.inl rfl)
  rcases List.mem_append.mp h1 with h2 | h2
  · exact Or.inl (pad2_chars mo hmo c h2)
  rcases List.mem_cons.mp h2 with rfl | h2
  · exact Or.inr (Or.inl rfl)
  rcases List.mem_append.mp h2 with h3 | h3
  · exact Or.inl (pad2_chars d hd c h3)
  rcases List.mem_cons.mp h3 with rfl | h3
  · exact Or.inr (Or.inr rfl)
  rcases List.mem_append.mp h3 with h4 | h4
  · exact Or.inl (pad2_chars h hh c h4)
  rcases List.mem_cons.mp h4 with rfl | h4
  · exact Or.inr (Or.inl rfl)
  rcases List.mem_append.mp h4 with h5 | h5
  · exact Or.inl (pad2_chars mi hmi c h5)
  rcases List.mem_cons.mp h5 with rfl | h5
  · exact Or.inr (Or.inl rfl)
  · exact Or.inl (pad2_chars s hs c h5)

theorem frag_chars (ff hh mm : String) (hff : ff.data.all Char.isDigit = true)
    (hhh : hh.data.all Char.isDigit = true)
    (hmm : mm.data.all Char.isDigit = true) :
    ∀ c ∈ (ff ++ "+" ++ hh ++ ":" ++ mm).data,
      c.isDigit = true ∨ c = '+' ∨ c = ':' := by
  intro c hc
  rw [String.data_append, String.data_append, String.data_append,
    String.data_append] at hc
  rcases List.mem_append.mp hc with h1 | h1
  swap
  · exact Or.inl (List.all_eq_true.mp hmm c h1)
  rcases List.mem_append.mp h1 with h2 | h2
  swap
  · exact Or.inr (Or.inr (List.mem_singleton.mp h2))
  rcases List.mem_append.mp h2 with h3 | h3
  swap
  · exact Or.inl (List.all_eq_true.mp hhh c h3)
  rcases List.mem_append.mp h3 with h4 | h4
  · exact Or.inl (List.all_eq_true.mp hff c h4)
  · exact Or.inr (Or.inl (List.mem_singleton.mp h4))

/- ### Claim C1 -/

/-- Claim C1 (counterexample): for the metadata value
`2021:05:04 10:11:12.500+02:00` the Date Resolver returns the parsed
date-time 2021-05-04T10:11:12 but a sub-second fragment of
`"500+02:00"` — the digits AND the trailing timezone offset — not
`"500"` as claimed: the split at the dot happens first, and the offset
strip is applied only to the part before the dot. -/
theorem C1_counterexample :
    get_date "f.jpg" [("Create Date", "2021:05:04 10:11:12.500+02:00")]
        none false =
      some ⟨some ⟨2021, 5, 4, 10, 11, 12⟩, "500+02:00"⟩ ∧
    ("500+02:00" : String) ≠ "500" := by
  constructor
  · decide
  · decide

/-- Claim C1 (amended): for every metadata date value of the form
`YYYY:MM:DD HH:MM:SS.FFF+HH:MM` — any valid calendar date-time rendered
with zero-padded fields, any digit fragment `FFF`, any two-digit offset
parts, found under any probed metadata key of any file — the Date
Resolver returns the parsed date-time (the offset lies after the dot and
cannot affect parsing), and a sub-second fragment equal to the entire
text after the first dot, i.e. the digits AND the trailing timezone
offset (`500+02:00` in the claim's example), because the value is split
at the dot before the offset strip and the strip applies only to the
part before the dot. -/
theorem C1_subseconds_keep_offset (file : String) (m : MetadataMap)
    (y mo d h mi s : Nat) (ff hh mm pre frag : String)
    (hpre : pre = padZ 4 y ++ ":" ++ padZ 2 mo ++ ":" ++ padZ 2 d ++ " " ++
      padZ 2 h ++ ":" ++ padZ 2 mi ++ ":" ++ padZ 2 s)
    (hfrag : frag = ff ++ "+" ++ hh ++ ":" ++ mm)
    (hv : firstKeyValue (dateKeys false) m = some (pre ++ "." ++ frag))
    (hy1 : 1 ≤ y) (hy2 : y ≤ 9999) (hmo1 : 1 ≤ mo) (hmo2 : mo ≤ 12)
    (hd1 : 1 ≤ d) (hd2 : d ≤ daysInMonth y mo) (hh23 : h ≤ 23)
    (hmi59 : mi ≤ 59) (hs59 : s ≤ 59)
    (hffd : ff.data.all Char.isDigit = true) (hffne : ff ≠ "")
    (hhhd : hh.data.all Char.isDigit = true) (hhh2 : hh.data.length = 2)
    (hmmd : mm.data.all Char.isDigit = true) (hmm2 : mm.data.length = 2) :
    get_date file m none false =
      some ⟨some ⟨y, mo, d, h, mi, s⟩, frag⟩ := by
  have hd31 : d ≤ 31 := le_trans hd2 (daysInMonth_le31 y mo)
  have hpredata : pre.data = (padZ 4 y).data ++ ':' :: ((padZ 2 mo).data ++
      ':' :: ((padZ 2 d).data ++ ' ' :: ((padZ 2 h).data ++ ':' ::
      ((padZ 2 mi).data ++ ':' :: (padZ 2 s).data)))) := by
    rw [hpre]
    exact canonical_data y mo d h mi s
  have hprechars : ∀ c ∈ pre.data, c.isDigit = true ∨ c = ':' ∨ c = ' ' := by
    rw [hpredata]
    exact canonical_chars y mo d h mi s hy2 (by omega) (by omega) (by omega)
      (by omega) (by omega)
  have hfragch : ∀ c ∈ frag.data, c.isDigit = true ∨ c = '+' ∨ c = ':' := by
    rw [hfrag]
    exact frag_chars ff hh mm hffd hhhd hmmd
  have hnodot_pre : '.' ∉ pre.data := by
    intro hmem
    rcases hprechars '.' hmem with hx | hx | hx
    · exact absurd hx (by decide)
    · exact absurd hx (by decide)
    · exact absurd hx (by decide)
  have hnodot_frag : '.' ∉ frag.data := by
    intro hmem
    rcases hfragch '.' hmem with hx | hx | hx
    · exact absurd hx (by decide)
    · exact absurd hx (by decide)
    · exact absurd hx (by decide)
  have hvdata : (pre ++ "." ++ frag).data = pre.data ++ '.' :: frag.data := by
    rw [String.data_append, String.data_append, List.append_assoc]
    rfl
  have hvne : pre ++ "." ++ frag ≠ "" := by
    intro hemp
    have h2 := congrArg String.data hemp
    rw [hvdata] at h2
    exact absurd (List.append_eq_nil.mp h2).2 (by simp)
  rw [get_date, hv]
  dsimp only
  rw [if_pos hvne, hvdata, pySplit_single_sep '.' _ _ hnodot_pre hnodot_frag]
  have hstrip : stripTz pre.data = pre.data := by
    rw [stripTz, lastTzIdx_none]
    intro c hc hpm
    rcases hprechars c hc with hx | hx | hx
    · rcases hpm with rfl | rfl
      · exact absurd hx (by decide)
      · exact absurd hx (by decide)
    · rcases hpm with rfl | rfl
      · exact absurd hx (by decide)
      · exact absurd hx (by decide)
    · rcases hpm with rfl | rfl
      · exact absurd hx (by decide)
      · exact absurd hx (by decide)
  simp only [List.headD, List.getD, List.get?, hstrip]
  have hparse : pyStrptime ':' pre.data = some ⟨y, mo, d, h, mi, s⟩ := by
    rw [hpredata]
    exact pyStrptime_canonical y mo d h mi s hy1 hy2 hmo1 hmo2 hd1 hd2 hh23
      hmi59 hs59
  rw [hparse]
  have hback : frag.data.asString = frag := String.asString_toList frag
  dsimp only [Option.getD]
  rw [hback]

/-- Claim C1 witness: the amended theorem applied at the claim's own
example value `2021:05:04 10:11:12.500+02:00`. -/
theorem C1_subseconds_keep_offset_witness :
    get_date "f.jpg" [("Create Date", "2021:05:04 10:11:12.500+02:00")]
        none false =
      some ⟨some ⟨2021, 5, 4, 10, 11, 12⟩, "500+02:00"⟩ :=
  C1_subseconds_keep_offset "f.jpg"
    [("Create Date", "2021:05:04 10:11:12.500+02:00")]
    2021 5 4 10 11 12 "500" "02" "00" "2021:05:04 10:11:12" "500+02:00"
    (by decide) (by decide) (by decide) (by decide) (by decide) (by decide)
    (by decide) (by decide) (by decide) (by decide) (by decide) (by decide)
    (by decide) (by decide) (by decide) (by decide) (by decide) (by decide)

/- ### Claim C7 -/

/-- Claim C7 (counterexample): a file named `in/a.xmp` is classified
`other`, but it is NOT placed into the `unknown` bucket — the
filesystem is returned unchanged and no file appears under
`out/unknown`. -/
theorem C7_counterexample :
    handle_file ⟨[("in/a.xmp", "X")]⟩ "in/a.xmp" "out" "%Y/%m/%d" false none
        (some [("MIME Type", "image/jpeg")]) =
      .ok (.other, ⟨[("in/a.xmp", "X")]⟩) ∧
    (FS.mk [("in/a.xmp", "X")]).isFile "out/unknown/a.xmp" = false := by
  constructor
  · decide
  · decide

/-- Claim C7 (amended): in timestamp mode, every file whose name ends
with `.xmp` is classified `other` and skipped outright — no date
resolution and no placement of any kind happens; the filesystem is
unchanged (only non-`.xmp` non-media files reach the `unknown` bucket). -/
theorem C7_xmp_skipped (fs : FS) (src out fmt : String) (mv : Bool)
    (regex : Option PyRegex) (exif : Option MetadataMap)
    (h : pyEndsWith src ".xmp" = true) :
    handle_file fs src out fmt mv regex exif = .ok (.other, fs) := by
  rw [handle_file, if_pos h]

/-- Claim C7 witness: the amended theorem applied to a concrete sidecar
file. -/
theorem C7_xmp_skipped_witness :
    pyEndsWith "in/a.xmp" ".xmp" = true ∧
    handle_file ⟨[("in/a.xmp", "X")]⟩ "in/a.xmp" "out" "%Y/%m/%d" true none
        none = .ok (.other, ⟨[("in/a.xmp", "X")]⟩) :=
  ⟨by decide, C7_xmp_skipped ⟨[("in/a.xmp", "X")]⟩ "in/a.xmp" "out" "%Y/%m/%d"
    true none none (by decide)⟩

/- ### Claim C9 -/

/-- Claim C9: placement in copy mode is idempotent — when the file at
the computed target path already holds the source's content, timestamp
mode returns `duplicate` and the filesystem is unchanged (no new file
is created anywhere). -/
theorem C9_copy_idempotent (fs : FS) (src out fmt : String)
    (regex : Option PyRegex) (exif : Option MetadataMap)
    (d : Option DateResult) (od tn c : String)
    (hx : pyEndsWith src ".xmp" = false)
    (hplan : planTarget src out fmt regex exif = .ok (d, od, tn))
    (hsrc : fs.read src = some c)
    (htgt : fs.read (od ++ "/" ++ tn) = some c) :
    handle_file fs src out fmt false regex exif = .ok (.duplicate, fs) := by
  rw [handle_file, if_neg (by simp [hx]), hplan]
  have hc1 : candidate (od ++ "/" ++ tn) 1 = od ++ "/" ++ tn := by
    rw [candidate, if_pos rfl]
  exact placeLoop_dup_hit fs src (od ++ "/" ++ tn) tn od false 1 c c hsrc
    (hc1 ▸ htgt) rfl
    (fun n h1 h2 => absurd h2 (by omega))
    (fun n ct h1 h2 => absurd h2 (by omega))
    0 1 (fs.files.length + 2) (by omega) (by omega) (by omega)

/-- Claim C9 witness: a concrete already-organized tree in which the
second (copy mode) run of `handle_file` reports a duplicate and
changes nothing. -/
theorem C9_copy_idempotent_witness :
    handle_file
        ⟨[("in/a.jpg", "X"), ("out/2021/05/04/20210504-101112.jpg", "X")]⟩
        "in/a.jpg" "out" "%Y/%m/%d" false none
        (some [("MIME Type", "image/jpeg"),
          ("Create Date", "2021:05:04 10:11:12")]) =
      .ok (.duplicate,
        ⟨[("in/a.jpg", "X"), ("out/2021/05/04/20210504-101112.jpg", "X")]⟩) :=
  C9_copy_idempotent
    ⟨[("in/a.jpg", "X"), ("out/2021/05/04/20210504-101112.jpg", "X")]⟩
    "in/a.jpg" "out" "%Y/%m/%d" none
    (some [("MIME Type", "image/jpeg"), ("Create Date", "2021:05:04 10:11:12")])
    (some ⟨some ⟨2021, 5, 4, 10, 11, 12⟩, ""⟩) "out/2021/05/04"
    "20210504-101112.jpg" "X" (by decide) (by decide) (by decide) (by decide)

/- ### Claim C10 -/

/-- Claim C10: when metadata extraction succeeds (a truthy, non-empty
mapping) but the mapping has no `MIME Type` key, `is_image_or_video`
raises `KeyError` through its unguarded lookup, so `handle_file`
propagates the exception and the driver counts the file as `error`
instead of sending it to the `unknown` bucket as `other`. -/
theorem C10_missing_mime_errors (fs : FS) (src out fmt : String) (mv : Bool)
    (regex : Option PyRegex) (m : MetadataMap)
    (hx : pyEndsWith src ".xmp" = false)
    (hne : m ≠ [])
    (hkey : m.lookup "MIME Type" = none) :
    is_image_or_video (some m) = .error .keyError ∧
    handle_file fs src out fmt mv regex (some m) = .error .keyError := by
  have hempty : m.isEmpty = false := by
    cases m with
    | nil => exact absurd rfl hne
    | cons e t => rfl
  have hiiv : is_image_or_video (some m) = .error .keyError := by
    rw [is_image_or_video]
    rw [if_neg (by simp [hempty])]
    rw [hkey]
  refine ⟨hiiv, ?_⟩
  rw [handle_file, if_neg (by simp [hx])]
  have hplan : planTarget src out fmt regex (some m) = .error .keyError := by
    rw [planTarget]
    simp only [hempty, Bool.not_false, if_pos, hiiv]
  rw [hplan]

/-- Claim C10 witness: a concrete metadata mapping without `MIME Type`
makes `handle_file` return the `KeyError`. -/
theorem C10_missing_mime_errors_witness :
    is_image_or_video (some [("File Type", "JPEG")]) = .error .keyError ∧
    handle_file ⟨[("in/a.jpg", "X")]⟩ "in/a.jpg" "out" "%Y/%m/%d" false none
        (some [("File Type", "JPEG")]) = .error .keyError :=
  C10_missing_mime_errors ⟨[("in/a.jpg", "X")]⟩ "in/a.jpg" "out" "%Y/%m/%d"
    false none [("File Type", "JPEG")] (by decide) (by decide) (by decide)

/- ### Claim C2 -/

/-- Claim C2 (counterexample): an image file `in/PHOTO.JPG` with no
resolvable date is placed under the name `photo.jpg`, not under its
original base name `PHOTO.JPG` — lower-casing IS applied. -/
theorem C2_counterexample :
    handle_file ⟨[("in/PHOTO.JPG", "X")]⟩ "in/PHOTO.JPG" "out" "%Y/%m/%d" false
        none (some [("MIME Type", "image/jpeg")]) =
      .ok (.copied, ⟨[("out/unknown/photo.jpg", "X"), ("in/PHOTO.JPG", "X")]⟩) ∧
    ("photo.jpg" : String) ≠ "PHOTO.JPG" := by
  constructor
  · decide
  · decide

/-- Claim C2 (amended): in timestamp mode, for every image-or-video file
whose date-time could not be resolved, the synthesized target filename
equals the original base name LOWER-CASED — the `.lower()` call in the
media branch applies regardless of whether the date was resolved (only
non-media files keep their base name unchanged). -/
theorem C2_unresolved_name_lowercased (src out fmt : String)
    (regex : Option PyRegex) (m : MetadataMap)
    (hne : m ≠ [])
    (hmedia : is_image_or_video (some m) = .ok true)
    (hdate : resolvedDate (get_date src m regex false) = none) :
    planTarget src out fmt regex (some m) =
      .ok (get_date src m regex false,
        get_output_dir (get_date src m regex false) out fmt,
        pyLower (basename src)) := by
  have hempty : m.isEmpty = false := by
    cases m with
    | nil => exact absurd rfl hne
    | cons e t => rfl
  have hname : get_file_name src (get_date src m regex false) = basename src := by
    cases hd : get_date src m regex false with
    | none => rfl
    | some r =>
      obtain ⟨rd, subs⟩ := r
      rw [hd] at hdate
      have : rd = none := hdate
      subst this
      rfl
  rw [planTarget]
  simp only [hempty, Bool.not_false, hmedia, Option.getD_some]
  rw [hname]
  simp

/-- Claim C2 witness: the amended theorem at the concrete inputs of the
counterexample. -/
theorem C2_unresolved_name_lowercased_witness :
    planTarget "in/PHOTO.JPG" "out" "%Y/%m/%d" none
        (some [("MIME Type", "image/jpeg")]) =
      .ok (get_date "in/PHOTO.JPG" [("MIME Type", "image/jpeg")] none false,
        get_output_dir
          (get_date "in/PHOTO.JPG" [("MIME Type", "image/jpeg")] none false)
          "out" "%Y/%m/%d",
        pyLower (basename "in/PHOTO.JPG")) :=
  C2_unresolved_name_lowercased "in/PHOTO.JPG" "out" "%Y/%m/%d" none
    [("MIME Type", "image/jpeg")] (by decide) (by decide) (by decide)

/- ### Claim C5 -/

/-- Claim C5 (counterexample): with primary `photo.jpg`, suffix `-2` and
sidecar `photo.jpg.xmp`, the relocated sidecar is named
`photo.jpg-2.xmp` — the suffix is appended after the primary's full
name, extension included — and the claimed name `photo-2.jpg.xmp` is
NOT created. -/
theorem C5_counterexample :
    handle_file_xmp ⟨[("in/photo.jpg.xmp", "S")]⟩ "in/photo.jpg" "photo.jpg" 2
        "out/2021/05/04" false =
      ⟨[("out/2021/05/04/photo.jpg-2.xmp", "S"), ("in/photo.jpg.xmp", "S")]⟩ ∧
    (FS.mk [("out/2021/05/04/photo.jpg-2.xmp", "S"),
        ("in/photo.jpg.xmp", "S")]).isFile "out/2021/05/04/photo-2.jpg.xmp" =
      false := by
  constructor
  · decide
  · decide

/-- Claim C5 (amended): for every primary file placed in timestamp mode
with disambiguation suffix `-S` (`S > 1`) that has a sidecar named
`original_path + '.xmp'`, the relocated sidecar's name is the primary's
synthesized name with `-S` and `.xmp` appended AFTER the primary's
extension (`photo.jpg` with suffix `-2` yields `photo.jpg-2.xmp`, not
`photo-2.jpg.xmp`). -/
theorem C5_sidecar_suffix_after_name (fs : FS) (src pn : String) (sfx : Nat)
    (od c : String) (hs : 1 < sfx)
    (hc : fs.read (src ++ ".xmp") = some c) :
    handle_file_xmp fs src pn sfx od false =
      fs.write (od ++ "/" ++ (pn ++ ("-" ++ Nat.repr sfx) ++ ".xmp")) c := by
  have hf : fs.isFile (src ++ ".xmp") = true := by
    simp [FS.isFile, hc]
  rw [handle_file_xmp]
  simp only [hf, hc, hs, if_true, ite_true]
  simp

/-- Claim C5 witness: the amended theorem at the concrete inputs of the
counterexample. -/
theorem C5_sidecar_suffix_after_name_witness :
    handle_file_xmp ⟨[("in/photo.jpg.xmp", "S")]⟩ "in/photo.jpg" "photo.jpg" 2
        "out/2021/05/04" false =
      (FS.mk [("in/photo.jpg.xmp", "S")]).write
        ("out/2021/05/04" ++ "/" ++ ("photo.jpg" ++ ("-" ++ Nat.repr 2) ++ ".xmp"))
        "S" :=
  C5_sidecar_suffix_after_name ⟨[("in/photo.jpg.xmp", "S")]⟩ "in/photo.jpg"
    "photo.jpg" 2 "out/2021/05/04" "S" (by decide) (by decide)

/- ### Claim C8 -/

/-- Claim C8: with no usable metadata date field, the Date Resolver
falls back to the built-in default filename pattern: when the pattern
matches and the six named groups form a valid calendar date-time, that
date-time is returned with empty sub-seconds (2016-09-15T12:34:56 for
`IMG_20160915_123456.jpg`); when the pattern fails to match, a capture
fails integer conversion, or the date-time is invalid (e.g. month 13,
as in `IMG_20161315_123456.jpg`), the result is absent. -/
theorem C8_default_pattern (f : String) (m : MetadataMap)
    (h1 : m.lookup "Create Date" = none)
    (h2 : m.lookup "Date/Time Original" = none)
    (h3 : m.lookup "Media created" = none) :
    get_date f m none false =
      (match defaultSearch (basename f).data with
        | some gd =>
          match groupsToDate gd with
          | some dt => some ⟨some dt, ""⟩
          | none => none
        | none => none) ∧
    get_date "IMG_20160915_123456.jpg" [] none false =
      some ⟨some ⟨2016, 9, 15, 12, 34, 56⟩, ""⟩ ∧
    get_date "IMG_20161315_123456.jpg" [] none false = none := by
  refine ⟨?_, by decide, by decide⟩
  have hdk : dateKeys false = ["Create Date", "Date/Time Original",
      "Media created"] := rfl
  have hkeys : firstKeyValue (dateKeys false) m = none := by
    rw [hdk, firstKeyValue, h1]
    dsimp only
    rw [firstKeyValue, h2]
    dsimp only
    rw [firstKeyValue, h3]
    dsimp only
    rfl
  rw [get_date, hkeys]
  dsimp only
  rw [getDateFromFilename]
  cases defaultSearch (basename f).data with
  | none => rfl
  | some gd =>
    cases groupsToDate gd with
    | none => rfl
    | some dt => rfl

/-- Claim C8 witness: the theorem applied to a mapping that has a MIME
type but no date fields. -/
theorem C8_default_pattern_witness :
    (get_date "IMG_20160915_123456.jpg" [("MIME Type", "image/jpeg")] none
        false =
      (match defaultSearch (basename "IMG_20160915_123456.jpg").data with
        | some gd =>
          match groupsToDate gd with
          | some dt => some ⟨some dt, ""⟩
          | none => none
        | none => none)) ∧
    get_date "IMG_20160915_123456.jpg" [] none false =
      some ⟨some ⟨2016, 9, 15, 12, 34, 56⟩, ""⟩ ∧
    get_date "IMG_20161315_123456.jpg" [] none false = none :=
  C8_default_pattern "IMG_20160915_123456.jpg" [("MIME Type", "image/jpeg")]
    (by decide) (by decide) (by decide)

/- ### Claim C3 -/

/-- Claim C3 (counterexample): in digest-rename mode, two distinct
contents (`"BBB"` at the source, `"AAA"` already at
`out/unknown/notes.txt`) with the same base name produce outcome
`duplicate` even though the digests differ — for non-media files the
target name does not embed any digest, and no digest comparison is
made. -/
theorem C3_counterexample :
    handle_file2 ⟨[("out/unknown/notes.txt", "AAA"), ("in/notes.txt", "BBB")]⟩
        "in/notes.txt" "out" "%Y/%m/%d" false none none =
      .ok (.duplicate,
        ⟨[("out/unknown/notes.txt", "AAA"), ("in/notes.txt", "BBB")]⟩) ∧
    sha256_hex "BBB" ≠ sha256_hex "AAA" := by
  constructor
  · decide
  · decide

/-- Claim C3 (amended): in timestamp mode a `duplicate` outcome implies
the source digest equals the digest of the existing file at one of the
probed candidate paths, and the filesystem is unchanged; in
digest-rename mode a `duplicate` outcome only means a file already
exists at the computed target path (digest equality is guaranteed by the
digest-embedded name only for media files, and not at all for non-media
files) and the filesystem is unchanged.  In both modes a duplicate never
overwrites the existing file. -/
theorem C3_duplicate_policy (fs : FS) (src out fmt : String) (mv : Bool)
    (regex : Option PyRegex) (exif : Option MetadataMap) (fs' : FS) :
    (handle_file fs src out fmt mv regex exif = .ok (.duplicate, fs') →
      fs' = fs ∧ ∃ d od tn,
        planTarget src out fmt regex exif = .ok (d, od, tn) ∧
        ∃ n c ct, 1 ≤ n ∧ fs.read src = some c ∧
          fs.read (candidate (od ++ "/" ++ tn) n) = some ct ∧
          sha256_hex ct = sha256_hex c) ∧
    (handle_file2 fs src out fmt mv regex exif = .ok (.duplicate, fs') →
      fs' = fs) := by
  constructor
  · intro h
    rcases handle_file_inv fs src out fmt mv regex exif .duplicate fs' h with
      ⟨_, ho, _⟩ | ⟨_, d, od, tn, hp, hloop⟩
    · exact absurd ho (by simp)
    · obtain ⟨hfs, n, c, ct, hn, h1, h2, h3⟩ :=
        placeLoop_duplicate_inv fs src (od ++ "/" ++ tn) tn od mv
          (fs.files.length + 2) 1 fs' hloop
      exact ⟨hfs, d, od, tn, hp, n, c, ct, hn, h1, h2, h3⟩
  · intro h
    rcases handle_file2_inv fs src out fmt mv regex exif .duplicate fs' h with
      ⟨_, hfs⟩ | ⟨target, c, _, _, ho, _⟩
    · exact hfs
    · exact absurd ho.symm (by cases mv <;> simp)

/-- Claim C3 witness: the duplicate branches of both modes exercised at
concrete inputs — a genuine timestamp-mode duplicate (equal contents)
and a digest-mode duplicate. -/
theorem C3_duplicate_policy_witness :
    ((FS.mk [("in/a.jpg", "X"), ("out/unknown/a.jpg", "X")]) =
        FS.mk [("in/a.jpg", "X"), ("out/unknown/a.jpg", "X")] ∧
      ∃ d od tn,
        planTarget "in/a.jpg" "out" "%Y/%m/%d" none
          (some [("MIME Type", "application/pdf")]) = .ok (d, od, tn) ∧
        ∃ n c ct, 1 ≤ n ∧
          (FS.mk [("in/a.jpg", "X"), ("out/unknown/a.jpg", "X")]).read
            "in/a.jpg" = some c ∧
          (FS.mk [("in/a.jpg", "X"), ("out/unknown/a.jpg", "X")]).read
            (candidate (od ++ "/" ++ tn) n) = some ct ∧
          sha256_hex ct = sha256_hex c) ∧
    ((FS.mk [("out/unknown/notes.txt", "AAA"), ("in/notes.txt", "BBB")]) =
      FS.mk [("out/unknown/notes.txt", "AAA"), ("in/notes.txt", "BBB")]) :=
  ⟨(C3_duplicate_policy
      ⟨[("in/a.jpg", "X"), ("out/unknown/a.jpg", "X")]⟩ "in/a.jpg" "out"
      "%Y/%m/%d" false none (some [("MIME Type", "application/pdf")])
      ⟨[("in/a.jpg", "X"), ("out/unknown/a.jpg", "X")]⟩).1 (by decide),
    (C3_duplicate_policy
      ⟨[("out/unknown/notes.txt", "AAA"), ("in/notes.txt", "BBB")]⟩
      "in/notes.txt" "out" "%Y/%m/%d" false none none
      ⟨[("out/unknown/notes.txt", "AAA"), ("in/notes.txt", "BBB")]⟩).2
      (by decide)⟩

/- ### Claim C6 -/

/-- Claim C6: copy mode never deletes or mutates the source file — after
any successful copy-mode placement (in either processing mode) the
source path still holds its original content; and in move mode a
successful `moved` outcome leaves no file at the source path. -/
theorem C6_round_trip (fs : FS) (src out fmt : String)
    (regex : Option PyRegex) (exif : Option MetadataMap) (o : Outcome)
    (fs' : FS) :
    (handle_file fs src out fmt false regex exif = .ok (o, fs') →
      fs'.read src = fs.read src) ∧
    (handle_file fs src out fmt true regex exif = .ok (.moved, fs') →
      fs'.read src = none) ∧
    (handle_file2 fs src out fmt false regex exif = .ok (o, fs') →
      fs'.read src = fs.read src) ∧
    (handle_file2 fs src out fmt true regex exif = .ok (.moved, fs') →
      fs'.read src = none) := by
  refine ⟨?_, ?_, ?_, ?_⟩
  · intro h
    rcases handle_file_inv fs src out fmt false regex exif o fs' h with
      ⟨_, _, hfs⟩ | ⟨hx, d, od, tn, hp, hloop⟩
    · rw [hfs]
    · by_cases ho : o = .duplicate
      · subst ho
        obtain ⟨hfs, _⟩ := placeLoop_duplicate_inv fs src (od ++ "/" ++ tn) tn
          od false (fs.files.length + 2) 1 fs' hloop
        rw [hfs]
      · obtain ⟨n, c, hn, hsrc, hfree, hoeq, hfs⟩ := placeLoop_write_inv fs src
          (od ++ "/" ++ tn) tn od false (fs.files.length + 2) 1 o fs' hloop ho
        subst hfs
        rw [handle_file_xmp_read _ _ _ _ _ _ _ hx]
        have hne : ¬ src = candidate (od ++ "/" ++ tn) n := by
          intro hh
          rw [← hh] at hfree
          simp [FS.isFile, hsrc] at hfree
        simp only [Bool.false_eq_true, if_false, ite_false]
        rw [FS.read_write, if_neg hne]
  · intro h
    rcases handle_file_inv fs src out fmt true regex exif .moved fs' h with
      ⟨_, ho, _⟩ | ⟨hx, d, od, tn, hp, hloop⟩
    · exact absurd ho (by simp)
    · obtain ⟨n, c, hn, hsrc, hfree, hoeq, hfs⟩ := placeLoop_write_inv fs src
        (od ++ "/" ++ tn) tn od true (fs.files.length + 2) 1 .moved fs' hloop
        (by simp)
      subst hfs
      rw [handle_file_xmp_read _ _ _ _ _ _ _ hx]
      have hne : ¬ src = candidate (od ++ "/" ++ tn) n := by
        intro hh
        rw [← hh] at hfree
        simp [FS.isFile, hsrc] at hfree
      simp only [if_true, ite_true]
      rw [FS.read_write, if_neg hne, FS.read_remove, if_pos rfl]
  · intro h
    rcases handle_file2_inv fs src out fmt false regex exif o fs' h with
      ⟨_, hfs⟩ | ⟨target, c, hsrc, hfree, _, hfs⟩
    · rw [hfs]
    · subst hfs
      have hne : ¬ src = target := by
        intro hh
        rw [← hh] at hfree
        simp [FS.isFile, hsrc] at hfree
      simp only [Bool.false_eq_true, if_false, ite_false]
      rw [FS.read_write, if_neg hne]
  · intro h
    rcases handle_file2_inv fs src out fmt true regex exif .moved fs' h with
      ⟨ho, _⟩ | ⟨target, c, hsrc, hfree, _, hfs⟩
    · exact absurd ho (by simp)
    · subst hfs
      have hne : ¬ src = target := by
        intro hh
        rw [← hh] at hfree
        simp [FS.isFile, hsrc] at hfree
      simp only [if_true, ite_true]
      rw [FS.read_write, if_neg hne, FS.read_remove, if_pos rfl]

/-- Claim C6 witness: concrete copy- and move-mode runs in both
processing modes, with the theorem deciding the source file's fate. -/
theorem C6_round_trip_witness :
    ((FS.mk [("out/unknown/a.txt", "X"), ("in/a.txt", "X")]).read "in/a.txt" =
      (FS.mk [("in/a.txt", "X")]).read "in/a.txt") ∧
    ((FS.mk [("out/unknown/b.txt", "Y")]).read "in/b.txt" = none) :=
  ⟨(C6_round_trip ⟨[("in/a.txt", "X")]⟩ "in/a.txt" "out" "%Y/%m/%d" none none
      .copied ⟨[("out/unknown/a.txt", "X"), ("in/a.txt", "X")]⟩).1 (by decide),
    (C6_round_trip ⟨[("in/b.txt", "Y")]⟩ "in/b.txt" "out" "%Y/%m/%d" none none
      .copied ⟨[("out/unknown/b.txt", "Y")]⟩).2.1 (by decide)⟩

theorem isFile_write_remove (fs : FS) (src cand c q : String) (mv : Bool)
    (hq1 : q ≠ cand) (hq2 : q ≠ src) (hqf : fs.isFile q = false) :
    (if mv then (fs.remove src).write cand c
      else fs.write cand c).isFile q = false := by
  cases mv
  · simp only [Bool.false_eq_true, if_false, ite_false]
    show ((fs.write cand c).read q).isSome = false
    rw [FS.read_write, if_neg hq1]
    exact hqf
  · simp only [if_true, ite_true]
    show (((fs.remove src).write cand c).read q).isSome = false
    rw [FS.read_write, if_neg hq1, FS.read_remove, if_neg hq2]
    exact hqf

theorem candidate_length_lb (tfp : String) (n : Nat) (hn : 2 ≤ n) :
    tfp.length + 1 ≤ (candidate tfp n).length := by
  rw [candidate, if_neg (by omega : ¬ n = 1)]
  rw [String.length_append, String.length_append, String.length_append]
  have h2 := congrArg String.length (splitext_append tfp)
  rw [String.length_append] at h2
  have hd : ("-" : String).length = 1 := by decide
  omega

theorem isFile_nil_fs (q : String) : (FS.mk []).isFile q = false :=
  rfl

theorem isFile_cons_fs (p c q : String) (rest : List (String × String)) :
    (FS.mk ((p, c) :: rest)).isFile q = true ↔
      (q = p ∨ (FS.mk rest).isFile q = true) := by
  by_cases hqp : q = p
  · subst hqp
    simp [FS.isFile, FS.read, lookup_cons_eq]
  · simp only [FS.isFile, FS.read]
    rw [lookup_cons_ne c rest hqp]
    simp [hqp]

/- ### Claim C4 -/

/-- Claim C4: in timestamp mode, with candidates `1..k` of a
target-base-name collision chain occupied, the next distinct-content
file is written to candidate `k+1` — the unsuffixed name for the first
file (`k = 0`) and `-2`, `-3`, ... in increasing order afterwards —
with outcome moved/copied, while a digest match at the first differing
probe position `m` ends the loop as `duplicate` with the filesystem
unchanged, consuming no suffix. -/
theorem C4_suffix_chain (fs : FS) (src out fmt : String) (mv : Bool)
    (regex : Option PyRegex) (exif : Option MetadataMap)
    (d : Option DateResult) (od tn c : String) (k : Nat)
    (hx : pyEndsWith src ".xmp" = false)
    (hplan : planTarget src out fmt regex exif = .ok (d, od, tn))
    (hsrc : fs.read src = some c)
    (hocc : ∀ n, 1 ≤ n →
      (fs.isFile (candidate (od ++ "/" ++ tn) n) = true ↔ n ≤ k))
    (hx1 : fs.isFile (src ++ ".xmp") = false)
    (hx2 : fs.isFile ((splitext src).1 ++ ".xmp") = false)
    (hne1 : candidate (od ++ "/" ++ tn) (k + 1) ≠ src ++ ".xmp")
    (hne2 : candidate (od ++ "/" ++ tn) (k + 1) ≠ (splitext src).1 ++ ".xmp") :
    ((∀ n ct, 1 ≤ n → fs.read (candidate (od ++ "/" ++ tn) n) = some ct →
        sha256_hex ct ≠ sha256_hex c) →
      handle_file fs src out fmt mv regex exif =
        .ok ((if mv then Outcome.moved else Outcome.copied),
          if mv then
            (fs.remove src).write (candidate (od ++ "/" ++ tn) (k + 1)) c
          else fs.write (candidate (od ++ "/" ++ tn) (k + 1)) c)) ∧
    (∀ m ct, 1 ≤ m → m ≤ k →
      fs.read (candidate (od ++ "/" ++ tn) m) = some ct →
      sha256_hex ct = sha256_hex c →
      (∀ n ct2, 1 ≤ n → n < m →
        fs.read (candidate (od ++ "/" ++ tn) n) = some ct2 →
        sha256_hex ct2 ≠ sha256_hex c) →
      handle_file fs src out fmt mv regex exif = .ok (.duplicate, fs)) := by
  have hk : k ≤ fs.files.length :=
    occupied_le_size fs (od ++ "/" ++ tn) k (fun n h1 h2 => (hocc n h1).mpr h2)
  have hsne : src ++ ".xmp" ≠ src :=
    fun hh => (ne_of_ends_xmp (pyEndsWith_append src ".xmp") hx) hh.symm
  constructor
  · intro hdiff
    rw [handle_file, if_neg (by simp [hx]), hplan]
    dsimp only
    have hhit := placeLoop_free_hit fs src (od ++ "/" ++ tn) tn od mv k c hsrc
      hocc hdiff k 1 (fs.files.length + 2) (by omega) (by omega) (by omega)
    rw [hhit]
    have hf1 := isFile_write_remove fs src (candidate (od ++ "/" ++ tn) (k + 1))
      c (src ++ ".xmp") mv (fun hh => hne1 hh.symm) hsne hx1
    have hf2 := isFile_write_remove fs src (candidate (od ++ "/" ++ tn) (k + 1))
      c ((splitext src).1 ++ ".xmp") mv (fun hh => hne2 hh.symm)
      (fun hh => (ne_of_ends_xmp (pyEndsWith_append (splitext src).1 ".xmp") hx)
        hh.symm) hx2
    rw [handle_file_xmp_noop _ src tn (k + 1) od mv hf1 hf2]
  · intro m ct h1m hmk hm heq hlt
    rw [handle_file, if_neg (by simp [hx]), hplan]
    exact placeLoop_dup_hit fs src (od ++ "/" ++ tn) tn od mv m c ct hsrc hm
      heq (fun n hn1 hnm => (hocc n hn1).mpr (by omega)) hlt
      (m - 1) 1 (fs.files.length + 2) (by omega) (by omega) (by omega)

/-- Claim C4 witness: the first file of a chain receives the unsuffixed
name (`k = 0`, outcome copied), and a digest match at the occupied first
candidate is reported as duplicate with nothing written. -/
theorem C4_suffix_chain_witness :
    (handle_file (FS.mk [("in/a.jpg", "X")]) "in/a.jpg" "out" "%Y/%m/%d" false
        none (some [("MIME Type", "image/jpeg"),
          ("Create Date", "2021:05:04 10:11:12")]) =
      .ok (.copied, (FS.mk [("in/a.jpg", "X")]).write
        (candidate ("out/2021/05/04" ++ "/" ++ "20210504-101112.jpg") 1) "X")) ∧
    (handle_file (FS.mk [("in/b.jpg", "X"),
        ("out/2021/05/04/20210504-101112.jpg", "X")]) "in/b.jpg" "out"
        "%Y/%m/%d" false none (some [("MIME Type", "image/jpeg"),
          ("Create Date", "2021:05:04 10:11:12")]) =
      .ok (.duplicate, FS.mk [("in/b.jpg", "X"),
        ("out/2021/05/04/20210504-101112.jpg", "X")])) := by
  constructor
  · have hocc : ∀ n, 1 ≤ n →
        ((FS.mk [("in/a.jpg", "X")]).isFile
          (candidate ("out/2021/05/04" ++ "/" ++ "20210504-101112.jpg") n) =
            true ↔ n ≤ 0) := by
      intro n h1
      constructor
      · intro hb
        rcases (isFile_cons_fs _ _ _ _).mp hb with hq | hq
        · by_cases hn1 : n = 1
          · subst hn1
            rw [candidate, if_pos rfl] at hq
            exact absurd hq (by decide)
          · have hlb := candidate_length_lb
              ("out/2021/05/04" ++ "/" ++ "20210504-101112.jpg") n (by omega)
            rw [hq] at hlb
            have e1 : ("out/2021/05/04" ++ "/" ++
                "20210504-101112.jpg" : String).length = 34 := by decide
            have e2 : ("in/a.jpg" : String).length = 8 := by decide
            omega
        · exact Bool.noConfusion (isFile_nil_fs _ ▸ hq)
      · intro h2
        omega
    exact (C4_suffix_chain (FS.mk [("in/a.jpg", "X")]) "in/a.jpg" "out"
      "%Y/%m/%d" false none (some [("MIME Type", "image/jpeg"),
        ("Create Date", "2021:05:04 10:11:12")])
      (some ⟨some ⟨2021, 5, 4, 10, 11, 12⟩, ""⟩) "out/2021/05/04"
      "20210504-101112.jpg" "X" 0 (by decide) (by decide) (by decide) hocc
      (by decide) (by decide) (by decide) (by decide)).1
      (fun n ct h1 hr => absurd ((hocc n h1).mp
        (by unfold FS.isFile; rw [hr]; rfl)) (by omega))
  · have hc1 : candidate ("out/2021/05/04" ++ "/" ++ "20210504-101112.jpg") 1 =
        "out/2021/05/04/20210504-101112.jpg" := by
      rw [candidate, if_pos rfl]
      decide
    have hocc : ∀ n, 1 ≤ n →
        ((FS.mk [("in/b.jpg", "X"),
          ("out/2021/05/04/20210504-101112.jpg", "X")]).isFile
          (candidate ("out/2021/05/04" ++ "/" ++ "20210504-101112.jpg") n) =
            true ↔ n ≤ 1) := by
      intro n h1
      constructor
      · intro hb
        by_cases hn1 : n = 1
        · omega
        · exfalso
          rcases (isFile_cons_fs _ _ _ _).mp hb with hq | hq
          · have hlb := candidate_length_lb
              ("out/2021/05/04" ++ "/" ++ "20210504-101112.jpg") n (by omega)
            rw [hq] at hlb
            have e1 : ("out/2021/05/04" ++ "/" ++
                "20210504-101112.jpg" : String).length = 34 := by decide
            have e2 : ("in/b.jpg" : String).length = 8 := by decide
            omega
          · rcases (isFile_cons_fs _ _ _ _).mp hq with hq2 | hq2
            · exact (candidate_ne_one
                ("out/2021/05/04" ++ "/" ++ "20210504-101112.jpg") n
                (by omega)) (hq2.trans hc1.symm)
            · exact Bool.noConfusion (isFile_nil_fs _ ▸ hq2)
      · intro h2
        have hn1 : n = 1 := by omega
        subst hn1
        rw [hc1]
        decide
    exact (C4_suffix_chain
      (FS.mk [("in/b.jpg", "X"), ("out/2021/05/04/20210504-101112.jpg", "X")])
      "in/b.jpg" "out" "%Y/%m/%d" false none
      (some [("MIME Type", "image/jpeg"),
        ("Create Date", "2021:05:04 10:11:12")])
      (some ⟨some ⟨2021, 5, 4, 10, 11, 12⟩, ""⟩) "out/2021/05/04"
      "20210504-101112.jpg" "X" 1 (by decide) (by decide) (by decide) hocc
      (by decide) (by decide) (by decide) (by decide)).2 1 "X" (by omega)
      (by omega) (by rw [hc1]; decide) rfl
      (fun n ct2 hn1 hn2 _ => absurd hn2 (by omega))

end Phockup
